import Mathlib

/-!
Basecoin transaction types (`types/tx.go`).

A shallow embedding of the transaction definitions of `types/tx.go`:
inputs and outputs with their `ValidateBasic` checks, the single-party
transactions `SendTx` and `AppTx` with `SignBytes` / `SetSignature`, the
multi-party `SignedCobaltTx` with its slot-based `SetSignature` and its JSON
surface, the pre-encoded `BinarySignedCobaltTx`, the registry of the `Tx`
variants, `TxID` and `jsonEscape`.

Conventions of the embedding:

* a Go `[]byte` is a `List Byte`; `nil` and the empty slice are both `[]`
  (the code only ever uses `len` and `bytes.Equal` on them);
* a Go interface value that may be `nil` (`crypto.Signature`,
  `crypto.PubKey`) is an `Option`;
* Go `int` / `int64` are `Int` (no arithmetic is performed on them here);
* a method with a pointer receiver that mutates the receiver returns the
  new receiver next to its result;
* a call that may panic returns an `Outcome`, which records the receiver as
  it was when the panic was raised;
* functions of libraries outside the repository (`go-wire`, `encoding/json`)
  are parameters (`Wire`, `Json`), or, for the key matching and the string
  escaping of `encoding/json`, the byte-slice encoding of `go-wire` and the
  RIPEMD-160 digest, a definition that follows the library;
* a Go string is a Lean `String`, except for `jsonEscape`, where strings that
  are not valid UTF-8 matter and a string is a `List Byte`.
-/

namespace Basecoin

/-! ## Bytes, keys and signatures -/

/-- One octet. -/
abbrev Byte := Fin 256

/-- A non-nil `crypto.Signature` value, identified with its byte form `Bytes()`. -/
structure Signature where
  Bytes : List Byte
deriving DecidableEq, Repr

/-- A non-nil `crypto.PubKey` value, identified with its byte form. -/
structure PubKey where
  Bytes : List Byte
deriving DecidableEq, Repr

/-! ## Coins -/

/-- Modelled from the spec: the `Coin` type (`types/coin.go`) is an Amount, a
denomination with an integer quantity. -/
structure Coin where
  Denom : String
  Amount : Int
deriving DecidableEq, Repr

/-- Modelled from the spec: the `Coins` type, a sequence of Amounts. -/
abbrev Coins := List Coin

/-- Modelled from the spec: `Coins.IsValid`, no negative quantity and no
duplicate denomination. -/
def Coins.IsValid (coins : Coins) : Bool :=
  coins.all (fun c => decide (0 ≤ c.Amount)) && decide ((coins.map Coin.Denom).Nodup)

/-- Modelled from the spec: `Coins.IsZero`, every quantity is zero or the set
is empty. -/
def Coins.IsZero (coins : Coins) : Bool :=
  coins.all (fun c => decide (c.Amount = 0))

/-- Modelled from the spec: the `%v` rendering of a coin set, used only inside
diagnostic logs. -/
def Coins.render (coins : Coins) : String :=
  "[" ++ ",".intercalate (coins.map (fun c => "(" ++ c.Denom ++ " " ++ toString c.Amount ++ ")")) ++ "]"

/-! ## Results of the `tmsp` library -/

/-- The result codes of `tmsp` that `types/tx.go` uses. -/
inductive CodeType where
  | OK
  | BaseInvalidInput
  | BaseInvalidOutput
deriving DecidableEq, Repr

/-- A `tmsp.Result`: a code and a diagnostic log. -/
structure Result where
  Code : CodeType
  Log : String
deriving DecidableEq, Repr

/-- The value `tmsp.OK`. -/
def OK : Result := { Code := CodeType.OK, Log := "" }

/-- The value `tmsp.ErrBaseInvalidInput`. -/
def ErrBaseInvalidInput : Result :=
  { Code := CodeType.BaseInvalidInput, Log := "Error base invalid input" }

/-- The value `tmsp.ErrBaseInvalidOutput`. -/
def ErrBaseInvalidOutput : Result :=
  { Code := CodeType.BaseInvalidOutput, Log := "Error base invalid output" }

/-- The method `Result.AppendLog`: same code, the log extended after a `;`. -/
def Result.AppendLog (res : Result) (log : String) : Result :=
  { Code := res.Code, Log := res.Log ++ ";" ++ log }

/-! ## Inputs and outputs -/

/-- The struct `TxInput`. -/
structure TxInput where
  Address : List Byte
  Coins : Coins
  Sequence : Int
  Signature : Option Signature
  PubKey : Option PubKey
deriving DecidableEq, Repr

/-- The method `TxInput.ValidateBasic`. -/
def TxInput.ValidateBasic (txIn : TxInput) : Result :=
  if txIn.Address.length ≠ 20 then
    ErrBaseInvalidInput.AppendLog "Invalid address length"
  else if !txIn.Coins.IsValid then
    ErrBaseInvalidInput.AppendLog ("Invalid coins " ++ txIn.Coins.render)
  else if txIn.Coins.IsZero then
    ErrBaseInvalidInput.AppendLog "Coins cannot be zero"
  else if txIn.Sequence ≤ 0 then
    ErrBaseInvalidInput.AppendLog "Sequence must be greater than 0"
  else if txIn.Sequence = 1 ∧ txIn.PubKey = none then
    ErrBaseInvalidInput.AppendLog "PubKey must be present when Sequence == 1"
  else if txIn.Sequence > 1 ∧ txIn.PubKey ≠ none then
    ErrBaseInvalidInput.AppendLog "PubKey must be nil when Sequence > 1"
  else
    OK

/-- The struct `TxOutput`. -/
structure TxOutput where
  Address : List Byte
  Coins : Coins
deriving DecidableEq, Repr

/-- The method `TxOutput.ValidateBasic`. -/
def TxOutput.ValidateBasic (txOut : TxOutput) : Result :=
  if txOut.Address.length ≠ 20 then
    ErrBaseInvalidOutput.AppendLog "Invalid address length"
  else if !txOut.Coins.IsValid then
    ErrBaseInvalidOutput.AppendLog ("Invalid coins " ++ txOut.Coins.render)
  else if txOut.Coins.IsZero then
    ErrBaseInvalidOutput.AppendLog "Coins cannot be zero"
  else
    OK

/-! ## The encoder of the `go-wire` library -/

/-- The struct `SendTx`. -/
structure SendTx where
  Fee : Int
  Gas : Int
  Inputs : List TxInput
  Outputs : List TxOutput
deriving DecidableEq, Repr

/-- The struct `AppTx`; the field `AppType` is the Go field `Type`. -/
structure AppTx where
  Fee : Int
  Gas : Int
  AppType : Byte
  Input : TxInput
  Data : List Byte
deriving DecidableEq, Repr

/-- The function `wire.BinaryBytes` of the `go-wire` library at the three types
`types/tx.go` calls it with: a string, a `*SendTx` and a `*AppTx`. The library
is not part of this repository, so the encoder is a parameter. -/
structure Wire where
  BinaryString : String → List Byte
  BinarySendTx : SendTx → List Byte
  BinaryAppTx : AppTx → List Byte

/-! ## `SendTx` -/

/-- The assignment `inputs[i].Signature = sig` on a slice of inputs (every
use below has `i` in range). -/
def setInputSignature (inputs : List TxInput) (i : Nat) (sig : Option Signature) :
    List TxInput :=
  match inputs[i]? with
  | some input => inputs.set i { input with Signature := sig }
  | none => inputs

/-- One iteration of the first loop of `SendTx.SignBytes`:
`sigz[i] = input.Signature; tx.Inputs[i].Signature = nil`. -/
def SendTx.saveStep (st : List (Option Signature) × List TxInput) (i : Nat) :
    List (Option Signature) × List TxInput :=
  match st.2[i]? with
  | some input => (st.1.set i input.Signature, setInputSignature st.2 i none)
  | none => st

/-- One iteration of the second loop of `SendTx.SignBytes`:
`tx.Inputs[i].Signature = sigz[i]`. -/
def SendTx.restoreStep (sigz : List (Option Signature)) (inputs : List TxInput) (i : Nat) :
    List TxInput :=
  setInputSignature inputs i (sigz.getD i none)

/-- The method `SendTx.SignBytes`: the returned bytes and the receiver after
the call. -/
def SendTx.SignBytes (w : Wire) (tx : SendTx) (chainID : String) : List Byte × SendTx :=
  let signBytes := w.BinaryString chainID
  let sigz : List (Option Signature) := List.replicate tx.Inputs.length none
  let saved := (List.range tx.Inputs.length).foldl SendTx.saveStep (sigz, tx.Inputs)
  let signBytes := signBytes ++ w.BinarySendTx { tx with Inputs := saved.2 }
  let inputs := (List.range saved.2.length).foldl (SendTx.restoreStep saved.1) saved.2
  (signBytes, { tx with Inputs := inputs })

/-- The loop of `SendTx.SetSignature` from index `i` on, `rest` being
`tx.Inputs[i:]`. -/
def SendTx.setSignatureFrom (tx : SendTx) (addr : List Byte) (sig : Option Signature) :
    Nat → List TxInput → Bool × SendTx
  | _, [] => (false, tx)
  | i, input :: rest =>
    if input.Address = addr then
      (true, { tx with Inputs := setInputSignature tx.Inputs i sig })
    else
      SendTx.setSignatureFrom tx addr sig (i + 1) rest

/-- The method `SendTx.SetSignature`: the returned flag and the receiver after
the call. -/
def SendTx.SetSignature (tx : SendTx) (addr : List Byte) (sig : Option Signature) :
    Bool × SendTx :=
  SendTx.setSignatureFrom tx addr sig 0 tx.Inputs

/-! ## `AppTx` -/

/-- The method `AppTx.SignBytes`: the returned bytes and the receiver after the
call. -/
def AppTx.SignBytes (w : Wire) (tx : AppTx) (chainID : String) : List Byte × AppTx :=
  let signBytes := w.BinaryString chainID
  let sig := tx.Input.Signature
  let tx1 : AppTx := { tx with Input := { tx.Input with Signature := none } }
  let signBytes := signBytes ++ w.BinaryAppTx tx1
  let tx2 : AppTx := { tx1 with Input := { tx1.Input with Signature := sig } }
  (signBytes, tx2)

/-- The method `AppTx.SetSignature`. -/
def AppTx.SetSignature (tx : AppTx) (sig : Option Signature) : Bool × AppTx :=
  (true, { tx with Input := { tx.Input with Signature := sig } })

/-! ## `SignedCobaltTx` -/

/-- The struct `CobaltTx`; `NormalizedTx` is a `*json.RawMessage`, a nilable
pointer to raw bytes. -/
structure CobaltTx where
  NormalizedTx : Option (List Byte)
  CipherText : List String
  Participants : List String
deriving DecidableEq, Repr

/-- The struct `SignedCobaltTx`. -/
structure SignedCobaltTx where
  Transaction : CobaltTx
  Signatures : List String
deriving DecidableEq, Repr

/-- The reasons a call can panic. -/
inductive Panic where
  | message (msg : String)
  | indexOutOfRange
  | nilDereference
deriving DecidableEq, Repr

/-- The outcome of a call on a receiver of type `σ`: it returns a value, or it
panics; either way `state` is the receiver at that moment. -/
inductive Outcome (α σ : Type) where
  | returned (value : α) (state : σ)
  | panicked (cause : Panic) (state : σ)
deriving DecidableEq, Repr

/-- One upper-case hexadecimal digit. -/
def hexDigit (n : Nat) : Char :=
  if n < 10 then Char.ofNat (48 + n) else Char.ofNat (55 + n)

/-- The characters of `Fmt("%X", bs)`: two upper-case hexadecimal digits per
byte, high nibble first. -/
def fmtXChars : List Byte → List Char
  | [] => []
  | b :: bs => hexDigit (b.val / 16) :: hexDigit (b.val % 16) :: fmtXChars bs

/-- The string `Fmt("%X", bs)` for a byte slice `bs`. -/
def fmtX (bs : List Byte) : String := String.mk (fmtXChars bs)

/-- The search loop of `SignedCobaltTx.SetSignature` from index `i` on: the
index of the first participant equal to `name`, or `-1`. -/
def SignedCobaltTx.findIdx (name : String) : Nat → List String → Int
  | _, [] => -1
  | i, participant :: rest =>
    if participant = name then (i : Int) else SignedCobaltTx.findIdx name (i + 1) rest

/-- The statement `if len(tx.Signatures) == 0 { tx.Signatures = make([]string,
len(tx.Transaction.Participants)) }` of `SignedCobaltTx.SetSignature`. -/
def SignedCobaltTx.allocate (tx : SignedCobaltTx) : SignedCobaltTx :=
  if tx.Signatures.length = 0 then
    { tx with Signatures := List.replicate tx.Transaction.Participants.length "" }
  else tx

/-- The method `SignedCobaltTx.SetSignature`. A nil `sig` panics when
`sig.Bytes()` is evaluated, after the allocation and before the slot is
indexed. -/
def SignedCobaltTx.SetSignature (tx : SignedCobaltTx) (name : String)
    (sig : Option Signature) : Outcome Bool SignedCobaltTx :=
  let idx := SignedCobaltTx.findIdx name 0 tx.Transaction.Participants
  if idx = -1 then
    Outcome.panicked (Panic.message "Couldn't set signature") tx
  else
    let tx1 : SignedCobaltTx := tx.allocate
    match sig with
    | none => Outcome.panicked Panic.nilDereference tx1
    | some s =>
      if idx.toNat < tx1.Signatures.length then
        Outcome.returned true { tx1 with Signatures := tx1.Signatures.set idx.toNat (fmtX s.Bytes) }
      else
        Outcome.panicked Panic.indexOutOfRange tx1

/-- The calls `tx.SetSignature(name, sig)` for the pairs of a list, one after
the other on the same receiver, as `testCobalt` makes them for its two
participants; a panic ends the sequence. -/
def SignedCobaltTx.SetSignatures :
    SignedCobaltTx → List (String × Basecoin.Signature) → Outcome Bool SignedCobaltTx
  | tx, [] => Outcome.returned true tx
  | tx, (name, sig) :: rest =>
    match tx.SetSignature name (some sig) with
    | Outcome.returned _ tx1 => SignedCobaltTx.SetSignatures tx1 rest
    | Outcome.panicked cause tx1 => Outcome.panicked cause tx1

/-- The value a call returned, or the panic that ended it, without the
receiver. -/
def Outcome.result {α σ : Type} : Outcome α σ → Except Panic α
  | Outcome.returned value _ => Except.ok value
  | Outcome.panicked cause _ => Except.error cause

/-- The function `json.Marshal` of the standard library at the type
`CobaltTx`: the encoding, or the error it reports. The library is not part of
this repository, so it is a parameter. -/
structure Json where
  MarshalCobaltTx : CobaltTx → Except String (List Byte)

/-- The method `SignedCobaltTx.SignBytes`: `json.Marshal(tx.Transaction)`, and
`panic(err)` when that fails. -/
def SignedCobaltTx.SignBytes (j : Json) (tx : SignedCobaltTx) (_chainID : String) :
    Outcome (List Byte) SignedCobaltTx :=
  match j.MarshalCobaltTx tx.Transaction with
  | Except.error err => Outcome.panicked (Panic.message err) tx
  | Except.ok txJSON => Outcome.returned txJSON tx

/-! ## `BinarySignedCobaltTx`, the interface `Tx` and `TxID` -/

/-- The struct `BinarySignedCobaltTx`. -/
structure BinarySignedCobaltTx where
  Bytes : List Byte
deriving DecidableEq, Repr

/-- The method `BinarySignedCobaltTx.SignBytes`: the returned bytes and the
receiver after the call. -/
def BinarySignedCobaltTx.SignBytes (tx : BinarySignedCobaltTx) (_chainID : String) :
    List Byte × BinarySignedCobaltTx :=
  (tx.Bytes, tx)

/-- The interface `Tx`: the three types with an `AssertIsTx` method, which are
also the three types registered with `wire.RegisterInterface`. -/
inductive Tx where
  | send (tx : SendTx)
  | app (tx : AppTx)
  | binarySignedCobalt (tx : BinarySignedCobaltTx)
deriving DecidableEq, Repr

/-- The interface method `Tx.SignBytes`, dispatched on the dynamic type. -/
def Tx.SignBytes (w : Wire) (chainID : String) : Tx → List Byte × Tx
  | Tx.send tx => ((tx.SignBytes w chainID).1, Tx.send (tx.SignBytes w chainID).2)
  | Tx.app tx => ((tx.SignBytes w chainID).1, Tx.app (tx.SignBytes w chainID).2)
  | Tx.binarySignedCobalt tx =>
    ((tx.SignBytes chainID).1, Tx.binarySignedCobalt (tx.SignBytes chainID).2)

/-- The function `uvarintSize` of `go-wire`: the number of bytes a
non-negative integer needs, 0 for 0. -/
def uvarintSize (i : Nat) : Nat :=
  if i = 0 then 0
  else if i < 2 ^ 8 then 1
  else if i < 2 ^ 16 then 2
  else if i < 2 ^ 24 then 3
  else if i < 2 ^ 32 then 4
  else if i < 2 ^ 40 then 5
  else if i < 2 ^ 48 then 6
  else if i < 2 ^ 56 then 7
  else 8

/-- The function `wire.WriteVarint` of `go-wire` on a non-negative integer: the
size byte, then that many bytes of the integer, most significant first. -/
def wireVarint (i : Nat) : List Byte :=
  Fin.ofNat (uvarintSize i) ::
    (List.range (uvarintSize i)).map (fun k => Fin.ofNat (i / 256 ^ (uvarintSize i - 1 - k) % 256))

/-- The function `wire.WriteByteSlice` of `go-wire`: the length as a varint,
then the bytes. It is how `go-wire` writes a `[]byte` value. -/
def wireByteSlice (bz : List Byte) : List Byte := wireVarint bz.length ++ bz

/-- Rotation of a 32-bit word to the left by `n` bits. -/
def rol32 (x n : Nat) : Nat := ((x <<< n) ||| (x >>> (32 - n))) % 2 ^ 32

/-- Complement of a 32-bit word. -/
def not32 (x : Nat) : Nat := x ^^^ 0xFFFFFFFF

/-- The boolean function of step `j` of RIPEMD-160. -/
def ripemdF (j x y z : Nat) : Nat :=
  if j < 16 then x ^^^ y ^^^ z
  else if j < 32 then (x &&& y) ||| (not32 x &&& z)
  else if j < 48 then (x ||| not32 y) ^^^ z
  else if j < 64 then (x &&& z) ||| (y &&& not32 z)
  else x ^^^ (y ||| not32 z)

/-- The added constant of step `j`, left line. -/
def ripemdK (j : Nat) : Nat :=
  if j < 16 then 0x00000000 else if j < 32 then 0x5A827999 else if j < 48 then 0x6ED9EBA1
  else if j < 64 then 0x8F1BBCDC else 0xA953FD4E

/-- The added constant of step `j`, right line. -/
def ripemdK' (j : Nat) : Nat :=
  if j < 16 then 0x50A28BE6 else if j < 32 then 0x5C4DD124 else if j < 48 then 0x6D703EF3
  else if j < 64 then 0x7A6D76E9 else 0x00000000

/-- The order of the message words, left line. -/
def ripemdR : List Nat :=
  [0, 1, 2, 3, 4, 5, 6, 7, 8, 9, 10, 11, 12, 13, 14, 15,
   7, 4, 13, 1, 10, 6, 15, 3, 12, 0, 9, 5, 2, 14, 11, 8,
   3, 10, 14, 4, 9, 15, 8, 1, 2, 7, 0, 6, 13, 11, 5, 12,
   1, 9, 11, 10, 0, 8, 12, 4, 13, 3, 7, 15, 14, 5, 6, 2,
   4, 0, 5, 9, 7, 12, 2, 10, 14, 1, 3, 8, 11, 6, 15, 13]

/-- The order of the message words, right line. -/
def ripemdR' : List Nat :=
  [5, 14, 7, 0, 9, 2, 11, 4, 13, 6, 15, 8, 1, 10, 3, 12,
   6, 11, 3, 7, 0, 13, 5, 10, 14, 15, 8, 12, 4, 9, 1, 2,
   15, 5, 1, 3, 7, 14, 6, 9, 11, 8, 12, 2, 10, 0, 4, 13,
   8, 6, 4, 1, 3, 11, 15, 0, 5, 12, 2, 13, 9, 7, 10, 14,
   12, 15, 10, 4, 1, 5, 8, 7, 6, 2, 13, 14, 0, 3, 9, 11]

/-- The rotation amounts, left line. -/
def ripemdS : List Nat :=
  [11, 14, 15, 12, 5, 8, 7, 9, 11, 13, 14, 15, 6, 7, 9, 8,
   7, 6, 8, 13, 11, 9, 7, 15, 7, 12, 15, 9, 11, 7, 13, 12,
   11, 13, 6, 7, 14, 9, 13, 15, 14, 8, 13, 6, 5, 12, 7, 5,
   11, 12, 14, 15, 14, 15, 9, 8, 9, 14, 5, 6, 8, 6, 5, 12,
   9, 15, 5, 11, 6, 8, 13, 12, 5, 12, 13, 14, 11, 8, 5, 6]

/-- The rotation amounts, right line. -/
def ripemdS' : List Nat :=
  [8, 9, 9, 11, 13, 15, 15, 5, 7, 7, 8, 11, 14, 14, 12, 6,
   9, 13, 15, 7, 12, 8, 9, 11, 7, 7, 12, 7, 6, 15, 13, 11,
   9, 7, 15, 11, 8, 6, 6, 14, 12, 13, 5, 14, 13, 13, 7, 5,
   15, 5, 8, 11, 14, 14, 6, 14, 6, 9, 12, 9, 12, 5, 15, 8,
   8, 5, 12, 9, 12, 5, 14, 6, 8, 13, 6, 5, 15, 13, 11, 11]

/-- The five 32-bit words of the RIPEMD-160 state. -/
structure RipemdState where
  h0 : Nat
  h1 : Nat
  h2 : Nat
  h3 : Nat
  h4 : Nat
deriving DecidableEq, Repr

/-- The initial state. -/
def ripemdInit : RipemdState :=
  { h0 := 0x67452301, h1 := 0xEFCDAB89, h2 := 0x98BADCFE, h3 := 0x10325476, h4 := 0xC3D2E1F0 }

/-- Step `j` of the left line on the message words `x`. -/
def ripemdStepL (x : List Nat) (st : RipemdState) (j : Nat) : RipemdState :=
  let t := (rol32 ((st.h0 + ripemdF j st.h1 st.h2 st.h3 + x.getD (ripemdR.getD j 0) 0 +
      ripemdK j) % 2 ^ 32) (ripemdS.getD j 0) + st.h4) % 2 ^ 32
  { h0 := st.h4, h1 := t, h2 := st.h1, h3 := rol32 st.h2 10, h4 := st.h3 }

/-- Step `j` of the right line on the message words `x`. -/
def ripemdStepR (x : List Nat) (st : RipemdState) (j : Nat) : RipemdState :=
  let t := (rol32 ((st.h0 + ripemdF (79 - j) st.h1 st.h2 st.h3 + x.getD (ripemdR'.getD j 0) 0 +
      ripemdK' j) % 2 ^ 32) (ripemdS'.getD j 0) + st.h4) % 2 ^ 32
  { h0 := st.h4, h1 := t, h2 := st.h1, h3 := rol32 st.h2 10, h4 := st.h3 }

/-- The compression of one block of 16 message words into the state: 80 steps
on each line, then the two lines are combined. -/
def ripemdBlock (st : RipemdState) (x : List Nat) : RipemdState :=
  let l := (List.range 80).foldl (ripemdStepL x) st
  let r := (List.range 80).foldl (ripemdStepR x) st
  { h0 := (st.h1 + l.h2 + r.h3) % 2 ^ 32,
    h1 := (st.h2 + l.h3 + r.h4) % 2 ^ 32,
    h2 := (st.h3 + l.h4 + r.h0) % 2 ^ 32,
    h3 := (st.h4 + l.h0 + r.h1) % 2 ^ 32,
    h4 := (st.h0 + l.h1 + r.h2) % 2 ^ 32 }

/-- The four bytes of a 32-bit word, least significant first. -/
def le32 (x : Nat) : List Byte :=
  [Fin.ofNat (x % 256), Fin.ofNat (x / 2 ^ 8 % 256), Fin.ofNat (x / 2 ^ 16 % 256),
   Fin.ofNat (x / 2 ^ 24 % 256)]

/-- The padded message: a byte `0x80`, zero bytes up to 56 modulo 64, and
the length in bits as 8 bytes, least significant first. -/
def ripemdPad (msg : List Byte) : List Byte :=
  msg ++ [0x80] ++ List.replicate ((119 - msg.length % 64) % 64) 0 ++
    (List.range 8).map (fun k => Fin.ofNat (8 * msg.length / 256 ^ k % 256))

/-- The 16 little-endian words of a block of 64 bytes. -/
def ripemdWords (block : List Byte) : List Nat :=
  (List.range 16).map (fun i =>
    (block.getD (4 * i) 0).val + 2 ^ 8 * (block.getD (4 * i + 1) 0).val +
      2 ^ 16 * (block.getD (4 * i + 2) 0).val + 2 ^ 24 * (block.getD (4 * i + 3) 0).val)

/-- The compression of the first `n` blocks of 64 bytes. -/
def ripemdBlocks : Nat → RipemdState → List Byte → RipemdState
  | 0, st, _ => st
  | n + 1, st, bytes => ripemdBlocks n (ripemdBlock st (ripemdWords (bytes.take 64))) (bytes.drop 64)

/-- The RIPEMD-160 digest (package `ripemd160`, which `go-wire` uses): the
state after all blocks of the padded message, as 20 bytes. -/
def ripemd160 (msg : List Byte) : List Byte :=
  let padded := ripemdPad msg
  let st := ripemdBlocks (padded.length / 64) ripemdInit padded
  le32 st.h0 ++ le32 st.h1 ++ le32 st.h2 ++ le32 st.h3 ++ le32 st.h4

/-- The function `wire.BinaryRipemd160` of `go-wire` on a byte slice: the
RIPEMD-160 digest of the binary encoding of the value, which for a `[]byte`
is `wire.WriteByteSlice`. -/
def BinaryRipemd160 (o : List Byte) : List Byte :=
  ripemd160 (wireByteSlice o)

/-- The function `TxID`: the returned digest and the transaction after the
call. -/
def TxID (w : Wire) (chainID : String) (tx : Tx) : List Byte × Tx :=
  let signBytes := tx.SignBytes w chainID
  (BinaryRipemd160 signBytes.1, signBytes.2)

/-! ## The registry of `Tx` variants -/

/-- The constant `TxTypeSend`. -/
def TxTypeSend : Byte := 0x01

/-- The constant `TxTypeApp`. -/
def TxTypeApp : Byte := 0x02

/-- The constant `TxTypeBinarySignedCobalt`. -/
def TxTypeBinarySignedCobalt : Byte := 0x03

/-- The table passed to `wire.RegisterInterface`: the type byte of each
concrete type. -/
def Tx.typeByte : Tx → Byte
  | Tx.send _ => TxTypeSend
  | Tx.app _ => TxTypeApp
  | Tx.binarySignedCobalt _ => TxTypeBinarySignedCobalt

/-! ## The JSON surface of `SignedCobaltTx` (`encoding/json`) -/

/-- A JSON value at a field of `CobaltTx`, as `encoding/json` uses it: its raw
text, whether it is `null`, and its items when it is an array of strings. -/
structure JsonLeaf where
  text : List Byte
  isNull : Bool
  strings : Option (List String)
deriving DecidableEq, Repr

/-- A member value of the top-level object: a value as above, or an object. -/
inductive JsonValue where
  | leaf (v : JsonLeaf)
  | object (members : List (String × JsonLeaf))
deriving DecidableEq, Repr

/-- The `json` struct tags of `CobaltTx`, in field order. -/
def CobaltTx.jsonTags : List String :=
  ["cobaltNormalizedRepresentation", "cipherText", "participants"]

/-- The `json` struct tags of `SignedCobaltTx`, in field order. -/
def SignedCobaltTx.jsonTags : List String := ["transaction", "signatures"]

/-- Equality of two keys up to the case of ASCII letters. -/
def jsonEqualFold (a b : String) : Bool :=
  decide (a.toList.map Char.toLower = b.toList.map Char.toLower)

/-- The field `encoding/json` picks for an object key: the field whose tag is
the key, else the first field whose tag equals the key up to letter case; a
key that matches no field is skipped. -/
def jsonFieldFor (tags : List String) (key : String) : Option Nat :=
  match tags.findIdx? (fun tag => decide (tag = key)) with
  | some i => some i
  | none => tags.findIdx? (fun tag => jsonEqualFold tag key)

/-- The decoding of a `[]string` field: `null` gives the nil slice, an array of
strings its items, anything else a type error. -/
def jsonStrings (v : JsonLeaf) : Except String (List String) :=
  if v.isNull then Except.ok []
  else
    match v.strings with
    | some items => Except.ok items
    | none => Except.error "json: cannot unmarshal value into Go value of type []string"

/-- The assignment of a JSON value to the field of `CobaltTx` with the given
index; `NormalizedTx` is a `*json.RawMessage` and takes the raw text. -/
def CobaltTx.setJsonField (tx : CobaltTx) (field : Nat) (v : JsonLeaf) :
    Except String CobaltTx :=
  match field with
  | 0 => Except.ok { tx with NormalizedTx := if v.isNull then none else some v.text }
  | 1 => (jsonStrings v).map (fun items => { tx with CipherText := items })
  | 2 => (jsonStrings v).map (fun items => { tx with Participants := items })
  | _ => Except.ok tx

/-- The function `json.Unmarshal` on the members of an object, into a
`CobaltTx`. -/
def CobaltTx.unmarshal : List (String × JsonLeaf) → CobaltTx → Except String CobaltTx
  | [], tx => Except.ok tx
  | (key, v) :: rest, tx =>
    match jsonFieldFor CobaltTx.jsonTags key with
    | none => CobaltTx.unmarshal rest tx
    | some field =>
      match tx.setJsonField field v with
      | Except.ok tx1 => CobaltTx.unmarshal rest tx1
      | Except.error err => Except.error err

/-- The assignment of a JSON value to the field of `SignedCobaltTx` with the
given index. -/
def SignedCobaltTx.setJsonField (tx : SignedCobaltTx) (field : Nat) (v : JsonValue) :
    Except String SignedCobaltTx :=
  match field, v with
  | 0, JsonValue.object members =>
    (CobaltTx.unmarshal members tx.Transaction).map (fun t => { tx with Transaction := t })
  | 0, JsonValue.leaf leaf =>
    if leaf.isNull then Except.ok tx
    else Except.error "json: cannot unmarshal value into Go value of type types.CobaltTx"
  | 1, JsonValue.leaf leaf =>
    (jsonStrings leaf).map (fun items => { tx with Signatures := items })
  | 1, JsonValue.object _ =>
    Except.error "json: cannot unmarshal object into Go value of type []string"
  | _, _ => Except.ok tx

/-- The function `json.Unmarshal` on the members of the top-level object, into
a `SignedCobaltTx`. -/
def SignedCobaltTx.unmarshal :
    List (String × JsonValue) → SignedCobaltTx → Except String SignedCobaltTx
  | [], tx => Except.ok tx
  | (key, v) :: rest, tx =>
    match jsonFieldFor SignedCobaltTx.jsonTags key with
    | none => SignedCobaltTx.unmarshal rest tx
    | some field =>
      match tx.setJsonField field v with
      | Except.ok tx1 => SignedCobaltTx.unmarshal rest tx1
      | Except.error err => Except.error err

/-- The keys `json.Marshal` emits for a `CobaltTx`, with the raw text emitted
for `NormalizedTx` (`none` stands for `null`). -/
def CobaltTx.marshalNormalized (tx : CobaltTx) : String × Option (List Byte) :=
  ("cobaltNormalizedRepresentation", tx.NormalizedTx)

/-- The receiver a call leaves behind, whether it returned or panicked. -/
def Outcome.state {α σ : Type} : Outcome α σ → σ
  | Outcome.returned _ st => st
  | Outcome.panicked _ st => st

/-- The receiver after a list of `SetSignature` calls with any names and any
signatures, nil included, each call made on what the one before left behind
(a call that panicked is recovered from). -/
def SignedCobaltTx.afterCalls :
    SignedCobaltTx → List (String × Option Basecoin.Signature) → SignedCobaltTx
  | tx, [] => tx
  | tx, (name, sig) :: rest =>
    SignedCobaltTx.afterCalls (tx.SetSignature name sig).state rest

/-- The document is fully signed: the slot of every participant is there and
is not empty. -/
def SignedCobaltTx.FullySigned (tx : SignedCobaltTx) : Prop :=
  ∀ k, k < tx.Transaction.Participants.length →
    ∃ v, tx.Signatures[k]? = some v ∧ v ≠ ""

/-! ## `jsonEscape` (`json.Marshal` on a string) -/

/-- A Go string: a sequence of bytes, not necessarily valid UTF-8. -/
abbrev GoString := List Byte

/-- One lower-case hexadecimal digit, as a byte: `hex[n]` of `encoding/json`. -/
def jsonHex (n : Nat) : Byte :=
  if n < 10 then Fin.ofNat (48 + n) else Fin.ofNat (87 + n)

/-- A UTF-8 continuation byte, `0x80` to `0xBF`. -/
def utf8Cont (b : Byte) : Bool := decide (0x80 ≤ b.val ∧ b.val ≤ 0xBF)

/-- The size `utf8.DecodeRuneInString` reports for the rune at the head of a
string that starts with a byte of `0x80` or more: 2, 3 or 4 for a well-formed
encoding, and 0 here where Go reports `RuneError` with size 1 (a byte that
cannot start a rune, a missing or wrong continuation byte, an overlong form, a
surrogate, or a value above `U+10FFFF`). -/
def utf8RuneSize : GoString → Nat
  | b0 :: b1 :: rest =>
    if 0xC2 ≤ b0.val ∧ b0.val ≤ 0xDF then
      if utf8Cont b1 then 2 else 0
    else if 0xE0 ≤ b0.val ∧ b0.val ≤ 0xEF then
      let lo := if b0.val = 0xE0 then 0xA0 else 0x80
      let hi := if b0.val = 0xED then 0x9F else 0xBF
      match rest with
      | b2 :: _ => if lo ≤ b1.val ∧ b1.val ≤ hi ∧ utf8Cont b2 then 3 else 0
      | [] => 0
    else if 0xF0 ≤ b0.val ∧ b0.val ≤ 0xF4 then
      let lo := if b0.val = 0xF0 then 0x90 else 0x80
      let hi := if b0.val = 0xF4 then 0x8F else 0xBF
      match rest with
      | b2 :: b3 :: _ =>
        if lo ≤ b1.val ∧ b1.val ≤ hi ∧ utf8Cont b2 ∧ utf8Cont b3 then 4 else 0
      | _ => 0
    else 0
  | _ => 0

/-- What `json.Marshal` writes for one byte below `0x80`: the byte itself, or
its escape for a backslash, a double quote, a control character, and for
`<`, `>` and `&`. -/
def jsonAsciiEscape (b : Byte) : List Byte :=
  if 0x20 ≤ b.val ∧ b.val ≠ 92 ∧ b.val ≠ 34 ∧ b.val ≠ 60 ∧ b.val ≠ 62 ∧ b.val ≠ 38 then [b]
  else if b.val = 92 ∨ b.val = 34 then [92, b]
  else if b.val = 10 then [92, 110]
  else if b.val = 13 then [92, 114]
  else if b.val = 9 then [92, 116]
  else [92, 117, 48, 48, jsonHex (b.val / 16), jsonHex (b.val % 16)]

/-- The loop of `json.Marshal` over the bytes of a string (`encodeState.string`
of `encoding/json`), `fuel` bounding the number of iterations: an ASCII byte
is written or escaped, a byte sequence that is not a well-formed rune has its
first byte replaced by the six characters `\ufffd`, `U+2028` and `U+2029` are escaped,
and any other rune is copied. -/
def jsonStringBody : Nat → GoString → List Byte
  | 0, _ => []
  | _ + 1, [] => []
  | fuel + 1, b :: rest =>
    if b.val < 0x80 then
      jsonAsciiEscape b ++ jsonStringBody fuel rest
    else if utf8RuneSize (b :: rest) = 0 then
      [92, 117, 102, 102, 102, 100] ++ jsonStringBody fuel rest
    else if (b :: rest).take 3 = [0xE2, 0x80, 0xA8] then
      [92, 117, 50, 48, 50, 56] ++ jsonStringBody fuel ((b :: rest).drop 3)
    else if (b :: rest).take 3 = [0xE2, 0x80, 0xA9] then
      [92, 117, 50, 48, 50, 57] ++ jsonStringBody fuel ((b :: rest).drop 3)
    else
      (b :: rest).take (utf8RuneSize (b :: rest)) ++
        jsonStringBody fuel ((b :: rest).drop (utf8RuneSize (b :: rest)))

/-- The function `json.Marshal` on a string, which never reports an error: the
escaped bytes between two double quotes. Every iteration of the loop consumes
at least one byte, so the length of the string is fuel enough. -/
def jsonMarshalString (s : GoString) : List Byte :=
  34 :: (jsonStringBody s.length s ++ [34])

/-- The function `jsonEscape`: `string(escapedBytes)` of `json.Marshal(str)`;
the error branch is never taken for a string. -/
def jsonEscape (str : GoString) : GoString :=
  jsonMarshalString str

/-! ## Relations and sample values used by the theorems -/

/-- The signature part of the sample encoding: a presence byte, then the bytes. -/
def sampleSigBytes : Option Basecoin.Signature → List Byte
  | some s => 1 :: s.Bytes
  | none => [0]

/-- A sample encoder, used to evaluate the definitions on concrete
transactions. -/
def sampleWire : Wire where
  BinaryString := fun s => Fin.ofNat s.length :: s.toList.map (fun c => Fin.ofNat c.toNat)
  BinarySendTx := fun tx =>
    tx.Inputs.foldr (fun x acc => x.Address ++ sampleSigBytes x.Signature ++ acc) []
  BinaryAppTx := fun tx => tx.Input.Address ++ sampleSigBytes tx.Input.Signature ++ tx.Data

/-- A sample input with a one-byte address. -/
def sampleInput (addr : Byte) (sig : Option Basecoin.Signature) : TxInput :=
  { Address := [addr], Coins := [{ Denom := "", Amount := 1 }], Sequence := 1,
    Signature := sig, PubKey := some { Bytes := [7] } }

/-- The input of the negative scenario: sequence 2 with a public key present. -/
def sampleInputSeq2 : TxInput :=
  { Address := List.replicate 20 1, Coins := [{ Denom := "", Amount := 1 }], Sequence := 2,
    Signature := none, PubKey := some { Bytes := [7] } }

/-- A sample transfer with three inputs, two of them with the same address. -/
def sampleSendTx : SendTx :=
  { Fee := 0, Gas := 0,
    Inputs := [sampleInput 1 none, sampleInput 2 (some { Bytes := [5] }), sampleInput 2 none],
    Outputs := [{ Address := [3], Coins := [{ Denom := "", Amount := 1 }] }] }

/-- The sample transfer with other signatures attached. -/
def sampleSendTxSigned : SendTx :=
  { Fee := 0, Gas := 0,
    Inputs := [sampleInput 1 (some { Bytes := [9] }), sampleInput 2 none,
      sampleInput 2 (some { Bytes := [4] })],
    Outputs := [{ Address := [3], Coins := [{ Denom := "", Amount := 1 }] }] }

/-- Two inputs agree in every field other than `Signature`. -/
def TxInput.eqUpToSignature (a b : TxInput) : Prop :=
  a.Address = b.Address ∧ a.Coins = b.Coins ∧ a.Sequence = b.Sequence ∧ a.PubKey = b.PubKey

/-- Two `SendTx` values differ at most in the `Signature` fields of their
inputs. -/
def SendTx.eqUpToSignatures (a b : SendTx) : Prop :=
  a.Fee = b.Fee ∧ a.Gas = b.Gas ∧ a.Outputs = b.Outputs ∧
    List.Forall₂ TxInput.eqUpToSignature a.Inputs b.Inputs

/-- Two `AppTx` values differ at most in the `Signature` field of their input. -/
def AppTx.eqUpToSignature (a b : AppTx) : Prop :=
  a.Fee = b.Fee ∧ a.Gas = b.Gas ∧ a.AppType = b.AppType ∧ a.Data = b.Data ∧
    TxInput.eqUpToSignature a.Input b.Input

/-- The input `x` with its `Signature` field replaced. -/
def TxInput.withSignature (x : TxInput) (sig : Option Basecoin.Signature) : TxInput :=
  { x with Signature := sig }

/-- The index `idx` is the first position of `name` in `l`. -/
def IsFirstIdx (l : List String) (name : String) (idx : Nat) : Prop :=
  l[idx]? = some name ∧ ∀ j, j < idx → l[j]? ≠ some name

/-- The agreement document of `testCobalt`, with short cipher texts. -/
def sampleCobaltTx : CobaltTx :=
  { NormalizedTx := some [123, 125], CipherText := ["04d6", "0448"],
    Participants := ["Citibank", "Deutsche Bank"] }

/-- The signed document of `testCobalt` before any signature: `Signatures: nil`. -/
def sampleSigned : SignedCobaltTx :=
  { Transaction := sampleCobaltTx, Signatures := [] }

/-- A signed document with three signature slots for two participants, as
JSON-unmarshalling a document with three entries under `signatures` gives. -/
def sampleMisaligned : SignedCobaltTx :=
  { Transaction := sampleCobaltTx, Signatures := ["3045", "3043", "3044"] }

/-- A signed document that names the same participant twice. -/
def sampleDuplicate : SignedCobaltTx :=
  { Transaction :=
      { NormalizedTx := none, CipherText := [], Participants := ["Citibank", "Citibank"] },
    Signatures := [] }

/-- A sample signature with the two bytes `AB 05`. -/
def sampleSig : Basecoin.Signature := { Bytes := [171, 5] }

/-- A second sample signature, `30 44`. -/
def sampleSig2 : Basecoin.Signature := { Bytes := [48, 68] }

/-- A sample JSON encoder: the participant names between braces. -/
def sampleJson : Json where
  MarshalCobaltTx := fun tx =>
    Except.ok (123 :: tx.Participants.foldr
      (fun p acc => p.toList.map (fun c => Fin.ofNat c.toNat) ++ acc) [125])

/-- A sample pre-encoded transaction. -/
def sampleBinary : BinarySignedCobaltTx := { Bytes := [123, 125] }

/-- The receiver `tx` with slot `idx` of `Signatures` overwritten by `v`. -/
def SignedCobaltTx.withSlot (tx : SignedCobaltTx) (idx : Nat) (v : String) : SignedCobaltTx :=
  { tx with Signatures := tx.Signatures.set idx v }

/-- Two calls in which the first participant of `testCobalt` signs twice, with
different signatures. -/
def sampleResign : List (String × Basecoin.Signature) :=
  [("Citibank", sampleSig), ("Citibank", sampleSig2)]

/-- An array of strings as a JSON value; the raw text is left out. -/
def sampleStrings (items : List String) : JsonLeaf :=
  { text := [], isNull := false, strings := some items }

/-- The document of `TestParseTx`, with the signatures and cipher texts
shortened and an empty object as the normalized representation. -/
def sampleDocument : List (String × JsonValue) :=
  [("signatures", JsonValue.leaf (sampleStrings ["3045", "3043"])),
   ("transaction", JsonValue.object
      [("cobaltNormalisedRepresentation", { text := [123, 125], isNull := false, strings := none }),
       ("cipherText", sampleStrings ["04d6", "0448"]),
       ("participants", sampleStrings ["Citibank", "Deutsche Bank"])])]

/-- The zero value `&SignedCobaltTx` that `TestParseTx` unmarshals into. -/
def emptySigned : SignedCobaltTx :=
  { Transaction := { NormalizedTx := none, CipherText := [], Participants := [] },
    Signatures := [] }

/-- The input of `testSendTx`: sequence 1 with the public key present. -/
def sampleInputAccepted : TxInput :=
  { Address := List.replicate 20 1, Coins := [{ Denom := "", Amount := 1 }], Sequence := 1,
    Signature := none, PubKey := some { Bytes := [7] } }

/-- What `json.Unmarshal` makes of the sample document. -/
def sampleParsed : SignedCobaltTx :=
  { Transaction :=
      { NormalizedTx := none, CipherText := ["04d6", "0448"],
        Participants := ["Citibank", "Deutsche Bank"] },
    Signatures := ["3045", "3043"] }

/-- A `transaction` object that spells the key as the struct tag does. -/
def sampleTagged : List (String × JsonLeaf) :=
  [("cobaltNormalizedRepresentation", { text := [123, 125], isNull := false, strings := none })]

/-! ## Theorems -/

theorem Result.appendLog_code (res : Result) (log : String) :
    (res.AppendLog log).Code = res.Code := rfl

theorem Result.appendLog_input_ne_OK (log : String) :
    ErrBaseInvalidInput.AppendLog log ≠ OK := by
  intro h
  have := congrArg Result.Code h
  simp [Result.AppendLog, ErrBaseInvalidInput, OK] at this

theorem Result.appendLog_output_ne_OK (log : String) :
    ErrBaseInvalidOutput.AppendLog log ≠ OK := by
  intro h
  have := congrArg Result.Code h
  simp [Result.AppendLog, ErrBaseInvalidOutput, OK] at this

/-- C1: `TxInput.ValidateBasic` returns `OK` exactly when the address has 20
bytes, the coins are valid and not zero, the sequence is positive and the
public key is present exactly when the sequence is 1; every other input gets
the `BaseInvalidInput` code, in particular every input with sequence 2 and a
present public key. -/
theorem TxInput.validateBasic_input_spec (i : TxInput) :
    (i.ValidateBasic = OK ↔
      (i.Address.length = 20 ∧ i.Coins.IsValid = true ∧ i.Coins.IsZero = false ∧
        0 < i.Sequence ∧ (i.Sequence = 1 ↔ i.PubKey.isSome = true))) ∧
    (i.ValidateBasic ≠ OK → i.ValidateBasic.Code = CodeType.BaseInvalidInput) ∧
    (i.Sequence = 2 → i.PubKey.isSome = true →
      i.ValidateBasic.Code = CodeType.BaseInvalidInput) := by
  have key : i.ValidateBasic = OK ↔
      (i.Address.length = 20 ∧ i.Coins.IsValid = true ∧ i.Coins.IsZero = false ∧
        0 < i.Sequence ∧ (i.Sequence = 1 ↔ i.PubKey.isSome = true)) := by
    unfold TxInput.ValidateBasic
    split_ifs with h1 h2 h3 h4 h5 h6
    · simp [Result.appendLog_input_ne_OK]; tauto
    · simp [Result.appendLog_input_ne_OK]; simp at h2; simp [h2]
    · simp [Result.appendLog_input_ne_OK]; simp [h3]
    · simp [Result.appendLog_input_ne_OK]; intros; omega
    · simp [Result.appendLog_input_ne_OK]
      intro _ _ _ _
      simp [h5.1, h5.2]
    · simp [Result.appendLog_input_ne_OK]
      intro _ _ _ _
      have hne : i.Sequence ≠ 1 := by omega
      simp [hne, Option.isSome_iff_ne_none, h6.2]
    · simp only [true_iff]
      simp at h1 h2 h3 h4
      refine ⟨h1, h2, h3, h4, ?_⟩
      constructor
      · intro h
        by_contra hc
        exact h5 ⟨h, by simpa using hc⟩
      · intro h
        by_contra hc
        have : i.Sequence > 1 := by omega
        exact h6 ⟨this, by
          intro hn
          simp [hn] at h⟩
  have code : i.ValidateBasic ≠ OK → i.ValidateBasic.Code = CodeType.BaseInvalidInput := by
    unfold TxInput.ValidateBasic
    split_ifs <;> simp [Result.AppendLog, ErrBaseInvalidInput]
  refine ⟨key, code, ?_⟩
  intro hs hp
  apply code
  intro hok
  obtain ⟨_, _, _, _, h⟩ := key.1 hok
  have := h.2 hp
  omega

theorem TxInput.validateBasic_input_spec_witness :
    sampleInputSeq2.Sequence = 2 ∧ sampleInputSeq2.PubKey.isSome = true ∧
    sampleInputSeq2.ValidateBasic.Code = CodeType.BaseInvalidInput :=
  ⟨rfl, rfl, (TxInput.validateBasic_input_spec sampleInputSeq2).2.2 rfl rfl⟩

/-- C2: `TxOutput.ValidateBasic` returns `OK` exactly when the address has 20
bytes and the coins are valid and not zero; every other output, in particular
every output with zero coins, gets the `BaseInvalidOutput` code. -/
theorem TxOutput.validateBasic_output_spec (o : TxOutput) :
    (o.ValidateBasic = OK ↔
      (o.Address.length = 20 ∧ o.Coins.IsValid = true ∧ o.Coins.IsZero = false)) ∧
    (o.ValidateBasic ≠ OK → o.ValidateBasic.Code = CodeType.BaseInvalidOutput) ∧
    (o.Coins.IsZero = true → o.ValidateBasic.Code = CodeType.BaseInvalidOutput) := by
  have key : o.ValidateBasic = OK ↔
      (o.Address.length = 20 ∧ o.Coins.IsValid = true ∧ o.Coins.IsZero = false) := by
    unfold TxOutput.ValidateBasic
    split_ifs with h1 h2 h3
    · simp [Result.appendLog_output_ne_OK]; tauto
    · simp [Result.appendLog_output_ne_OK]; simp at h2; simp [h2]
    · simp [Result.appendLog_output_ne_OK]; simp [h3]
    · simp at h1 h2 h3
      simp [h1, h2, h3]
  have code : o.ValidateBasic ≠ OK → o.ValidateBasic.Code = CodeType.BaseInvalidOutput := by
    unfold TxOutput.ValidateBasic
    split_ifs <;> simp [Result.AppendLog, ErrBaseInvalidOutput]
  refine ⟨key, code, ?_⟩
  intro hz
  apply code
  intro hok
  obtain ⟨_, _, h⟩ := key.1 hok
  simp [hz] at h

theorem TxOutput.validateBasic_output_spec_witness :
    Coins.IsZero [{ Denom := "", Amount := 0 }] = true ∧
    ({ Address := List.replicate 20 0, Coins := [{ Denom := "", Amount := 0 }] } :
      TxOutput).ValidateBasic.Code = CodeType.BaseInvalidOutput :=
  ⟨by decide,
    (TxOutput.validateBasic_output_spec
      { Address := List.replicate 20 0, Coins := [{ Denom := "", Amount := 0 }] }).2.2
      (by decide)⟩

theorem setInputSignature_append_cons (pre post : List TxInput) (x : TxInput)
    (sig : Option Signature) (k : Nat) (hk : pre.length = k) :
    setInputSignature (pre ++ x :: post) k sig = pre ++ x.withSignature sig :: post := by
  subst hk
  have h : (pre ++ x :: post)[pre.length]? = some x := by
    rw [List.getElem?_append_right (Nat.le_refl _)]
    simp
  unfold setInputSignature
  rw [h]
  simp [TxInput.withSignature]

theorem SendTx.saveLoop_spec (ins : List TxInput) (k : Nat) (hk : k ≤ ins.length) :
    (List.range k).foldl SendTx.saveStep (List.replicate ins.length none, ins) =
      ((ins.take k).map TxInput.Signature ++ List.replicate (ins.length - k) none,
        (ins.take k).map (fun x => x.withSignature none) ++ ins.drop k) := by
  induction k with
  | zero => simp
  | succ k ih =>
    have hlt : k < ins.length := hk
    rw [List.range_succ, List.foldl_append, ih (Nat.le_of_lt hlt)]
    have hdrop : ins.drop k = ins[k] :: ins.drop (k + 1) := List.drop_eq_getElem_cons hlt
    have hrep : List.replicate (ins.length - k) (none : Option Signature) =
        none :: List.replicate (ins.length - (k + 1)) none := by
      have : ins.length - k = (ins.length - (k + 1)) + 1 := by omega
      rw [this, List.replicate_succ]
    have hlen : ((ins.take k).map (fun x => x.withSignature none)).length = k := by
      simp [Nat.min_eq_left (Nat.le_of_lt hlt)]
    have hlen2 : ((ins.take k).map TxInput.Signature).length = k := by
      simp [Nat.min_eq_left (Nat.le_of_lt hlt)]
    simp only [List.foldl_cons, List.foldl_nil, SendTx.saveStep]
    rw [hdrop, hrep]
    rw [List.getElem?_append_right (by omega)]
    simp only [hlen, Nat.sub_self, List.getElem?_cons_zero]
    rw [setInputSignature_append_cons _ _ _ _ _ hlen]
    rw [List.set_append_right _ _ (by omega)]
    simp only [hlen2, Nat.sub_self, List.set_cons_zero]
    have htake : ins.take (k + 1) = ins.take k ++ [ins[k]] := by
      rw [List.take_succ]
      simp [List.getElem?_eq_getElem hlt]
    rw [htake]
    simp only [List.map_append, List.map_cons, List.map_nil, List.append_assoc,
      List.singleton_append]

theorem TxInput.withSignature_restore (x : TxInput) :
    (x.withSignature none).withSignature x.Signature = x := rfl

theorem SendTx.restoreLoop_spec (ins : List TxInput) (k : Nat) (hk : k ≤ ins.length) :
    (List.range k).foldl (SendTx.restoreStep (ins.map TxInput.Signature))
        (ins.map (fun x => x.withSignature none)) =
      ins.take k ++ (ins.drop k).map (fun x => x.withSignature none) := by
  induction k with
  | zero => simp
  | succ k ih =>
    have hlt : k < ins.length := hk
    rw [List.range_succ, List.foldl_append, ih (Nat.le_of_lt hlt)]
    have hdrop : ins.drop k = ins[k] :: ins.drop (k + 1) := List.drop_eq_getElem_cons hlt
    have hlen : (ins.take k).length = k := by
      simp [Nat.min_eq_left (Nat.le_of_lt hlt)]
    have htake : ins.take (k + 1) = ins.take k ++ [ins[k]] := by
      rw [List.take_succ]
      simp [List.getElem?_eq_getElem hlt]
    have hsig : (ins.map TxInput.Signature).getD k none = ins[k].Signature := by
      simp [List.getD_eq_getElem?_getD, List.getElem?_eq_getElem hlt]
    simp only [List.foldl_cons, List.foldl_nil, SendTx.restoreStep]
    rw [hdrop, List.map_cons, setInputSignature_append_cons _ _ _ _ _ hlen, hsig,
      TxInput.withSignature_restore, htake]
    simp only [List.append_assoc, List.singleton_append]

theorem SendTx.signBytes_eq (w : Wire) (tx : SendTx) (chainID : String) :
    tx.SignBytes w chainID =
      (w.BinaryString chainID ++
          w.BinarySendTx { tx with Inputs := tx.Inputs.map (fun x => x.withSignature none) },
        tx) := by
  have h1 := SendTx.saveLoop_spec tx.Inputs tx.Inputs.length (Nat.le_refl _)
  have h2 := SendTx.restoreLoop_spec tx.Inputs tx.Inputs.length (Nat.le_refl _)
  simp only [List.take_length, Nat.sub_self, List.replicate_zero, List.append_nil,
    List.drop_length, List.map_nil] at h1 h2
  unfold SendTx.SignBytes
  simp only [h1, List.length_map, h2]

theorem AppTx.signBytes_app_eq (w : Wire) (tx : AppTx) (chainID : String) :
    tx.SignBytes w chainID =
      (w.BinaryString chainID ++
          w.BinaryAppTx { tx with Input := tx.Input.withSignature none },
        tx) := rfl

theorem TxInput.eqUpToSignature_clear (a b : TxInput) (h : TxInput.eqUpToSignature a b) :
    a.withSignature none = b.withSignature none := by
  obtain ⟨h1, h2, h3, h4⟩ := h
  cases a; cases b
  simp_all [TxInput.withSignature]

theorem SendTx.map_clear_of_forall₂ (l₁ l₂ : List TxInput)
    (h : List.Forall₂ TxInput.eqUpToSignature l₁ l₂) :
    l₁.map (fun x => x.withSignature none) = l₂.map (fun x => x.withSignature none) := by
  induction h with
  | nil => rfl
  | cons hab _ ih =>
    simp only [List.map_cons, ih, TxInput.eqUpToSignature_clear _ _ hab]

theorem SendTx.signBytes_congr (w : Wire) (chainID : String) (tx₁ tx₂ : SendTx)
    (h : SendTx.eqUpToSignatures tx₁ tx₂) :
    (tx₁.SignBytes w chainID).1 = (tx₂.SignBytes w chainID).1 := by
  obtain ⟨hf, hg, ho, hi⟩ := h
  rw [SendTx.signBytes_eq, SendTx.signBytes_eq]
  simp only [hf, hg, ho, SendTx.map_clear_of_forall₂ _ _ hi]

/-- The loop of `SendTx.SetSignature` when no remaining input matches. -/
theorem SendTx.setSignatureFrom_none (tx : SendTx) (addr : List Byte)
    (sig : Option Signature) (rest : List TxInput) (i : Nat)
    (h : ∀ x ∈ rest, x.Address ≠ addr) :
    SendTx.setSignatureFrom tx addr sig i rest = (false, tx) := by
  induction rest generalizing i with
  | nil => rfl
  | cons x rest ih =>
    have hx : x.Address ≠ addr := h x (List.mem_cons_self _ _)
    simp only [SendTx.setSignatureFrom, hx, if_false]
    exact ih (i + 1) (fun y hy => h y (List.mem_cons_of_mem _ hy))

/-- The loop of `SendTx.SetSignature` when the first remaining match is `x`. -/
theorem SendTx.setSignatureFrom_first (tx : SendTx) (addr : List Byte)
    (sig : Option Signature) (pre mid post : List TxInput) (x : TxInput)
    (hin : tx.Inputs = pre ++ (mid ++ x :: post))
    (hmid : ∀ y ∈ mid, y.Address ≠ addr) (hx : x.Address = addr) :
    SendTx.setSignatureFrom tx addr sig pre.length (mid ++ x :: post) =
      (true, { tx with Inputs := pre ++ (mid ++ x.withSignature sig :: post) }) := by
  induction mid generalizing pre with
  | nil =>
    simp only [List.nil_append, SendTx.setSignatureFrom, hx, if_true]
    rw [hin]
    simp only [List.nil_append]
    rw [setInputSignature_append_cons _ _ _ _ _ rfl]
  | cons y mid ih =>
    have hy : y.Address ≠ addr := hmid y (List.mem_cons_self _ _)
    simp only [List.cons_append, SendTx.setSignatureFrom, hy, if_false]
    have := ih (pre ++ [y]) (by simpa using hin) (fun z hz => hmid z (List.mem_cons_of_mem _ hz))
    simpa using this

/-- A list with an element of address `addr` splits at the first one. -/
theorem SendTx.exists_first_match (addr : List Byte) (l : List TxInput)
    (h : ∃ x ∈ l, x.Address = addr) :
    ∃ mid x post, l = mid ++ x :: post ∧ (∀ y ∈ mid, y.Address ≠ addr) ∧ x.Address = addr := by
  induction l with
  | nil => simp at h
  | cons a l ih =>
    by_cases ha : a.Address = addr
    · exact ⟨[], a, l, rfl, by simp, ha⟩
    · obtain ⟨x, hxm, hx⟩ := h
      have hxl : x ∈ l := by
        rcases List.mem_cons.1 hxm with h | h
        · exact absurd (h ▸ hx) ha
        · exact h
      obtain ⟨mid, z, post, hl, hmid, hz⟩ := ih ⟨x, hxl, hx⟩
      refine ⟨a :: mid, z, post, by simp [hl], ?_, hz⟩
      intro y hy
      rcases List.mem_cons.1 hy with h | h
      · exact h ▸ ha
      · exact hmid y h

/-- The two ways `SendTx.SetSignature` can end. -/
theorem SendTx.setSignature_cases (tx : SendTx) (a : List Byte) (s : Option Signature) :
    ((∀ x ∈ tx.Inputs, x.Address ≠ a) ∧ tx.SetSignature a s = (false, tx)) ∨
    (∃ mid x post, tx.Inputs = mid ++ x :: post ∧ (∀ y ∈ mid, y.Address ≠ a) ∧
      x.Address = a ∧
      tx.SetSignature a s = (true, { tx with Inputs := mid ++ x.withSignature s :: post })) := by
  by_cases h : ∃ x ∈ tx.Inputs, x.Address = a
  · right
    obtain ⟨mid, x, post, hl, hmid, hx⟩ := SendTx.exists_first_match a tx.Inputs h
    refine ⟨mid, x, post, hl, hmid, hx, ?_⟩
    have := SendTx.setSignatureFrom_first tx a s [] mid post x (by simpa using hl) hmid hx
    unfold SendTx.SetSignature
    rw [hl]
    simpa using this
  · left
    have hall : ∀ x ∈ tx.Inputs, x.Address ≠ a := fun x hx hxa => h ⟨x, hx, hxa⟩
    exact ⟨hall, SendTx.setSignatureFrom_none tx a s tx.Inputs 0 hall⟩

theorem SendTx.setSignature_clear (tx : SendTx) (a : List Byte) (s : Option Signature) :
    (tx.SetSignature a s).2.Fee = tx.Fee ∧ (tx.SetSignature a s).2.Gas = tx.Gas ∧
    (tx.SetSignature a s).2.Outputs = tx.Outputs ∧
    (tx.SetSignature a s).2.Inputs.map (fun x => x.withSignature none) =
      tx.Inputs.map (fun x => x.withSignature none) := by
  rcases SendTx.setSignature_cases tx a s with ⟨_, h⟩ | ⟨mid, x, post, hl, _, _, h⟩
  · simp [h]
  · rw [h, hl]
    simp [TxInput.withSignature]

/-- C3: the bytes `SignBytes` returns do not depend on signatures. For a
`SendTx`, calling `SignBytes`, then `SetSignature` with any address and any
signature, then `SignBytes` again gives the same bytes twice; two `SendTx`
values, and two `AppTx` values, that differ only in the `Signature` fields of
their inputs have the same `SignBytes`. -/
theorem signBytes_signature_independent (w : Wire) (chainID : String) :
    (∀ (tx : SendTx) (a : List Byte) (s : Option Signature),
      ((((tx.SignBytes w chainID).2.SetSignature a s).2).SignBytes w chainID).1 =
        (tx.SignBytes w chainID).1) ∧
    (∀ (tx : AppTx) (s : Option Signature),
      ((((tx.SignBytes w chainID).2.SetSignature s).2).SignBytes w chainID).1 =
        (tx.SignBytes w chainID).1) ∧
    (∀ tx₁ tx₂ : SendTx, SendTx.eqUpToSignatures tx₁ tx₂ →
      (tx₁.SignBytes w chainID).1 = (tx₂.SignBytes w chainID).1) ∧
    (∀ tx₁ tx₂ : AppTx, AppTx.eqUpToSignature tx₁ tx₂ →
      (tx₁.SignBytes w chainID).1 = (tx₂.SignBytes w chainID).1) := by
  refine ⟨?_, ?_, ?_, ?_⟩
  · intro tx a s
    obtain ⟨hf, hg, ho, hi⟩ := SendTx.setSignature_clear tx a s
    simp only [SendTx.signBytes_eq, hf, hg, ho, hi]
  · intro tx s
    rfl
  · intro tx₁ tx₂ h
    exact SendTx.signBytes_congr w chainID tx₁ tx₂ h
  · intro tx₁ tx₂ h
    obtain ⟨hf, hg, ht, hd, hi⟩ := h
    simp only [AppTx.signBytes_app_eq, hf, hg, ht, hd, TxInput.eqUpToSignature_clear _ _ hi]

theorem signBytes_signature_independent_witness :
    SendTx.eqUpToSignatures sampleSendTx sampleSendTxSigned ∧
    (sampleSendTx.SignBytes sampleWire "test_chain_id").1 =
      (sampleSendTxSigned.SignBytes sampleWire "test_chain_id").1 :=
  have h : SendTx.eqUpToSignatures sampleSendTx sampleSendTxSigned :=
    ⟨rfl, rfl, rfl,
      List.Forall₂.cons ⟨rfl, rfl, rfl, rfl⟩
        (List.Forall₂.cons ⟨rfl, rfl, rfl, rfl⟩
          (List.Forall₂.cons ⟨rfl, rfl, rfl, rfl⟩ List.Forall₂.nil))⟩
  ⟨h, (signBytes_signature_independent sampleWire "test_chain_id").2.2.1 _ _ h⟩

/-- C4: `SignBytes` leaves a `SendTx` (with any number of inputs, signed or
not) and an `AppTx` exactly as they were: every signature and every other
field of the receiver after the call equal those before it. -/
theorem signBytes_no_effect (w : Wire) (chainID : String) :
    (∀ tx : SendTx, (tx.SignBytes w chainID).2 = tx) ∧
    (∀ tx : AppTx, (tx.SignBytes w chainID).2 = tx) := by
  constructor
  · intro tx
    rw [SendTx.signBytes_eq]
  · intro tx
    rfl

/-- C5: `SendTx.SetSignature` returns true exactly when some input has the
given address; then the first such input (lowest index) gets the signature
and nothing else in the transaction changes. -/
theorem SendTx.setSignature_spec (tx : SendTx) (a : List Byte) (s : Option Basecoin.Signature) :
    ((tx.SetSignature a s).1 = true ↔ ∃ x ∈ tx.Inputs, x.Address = a) ∧
    ((tx.SetSignature a s).1 = true →
      ∃ i, ∃ h : i < tx.Inputs.length,
        tx.Inputs[i].Address = a ∧
        (∀ j, ∀ hj : j < tx.Inputs.length, j < i → tx.Inputs[j].Address ≠ a) ∧
        (tx.SetSignature a s).2 =
          { tx with Inputs := tx.Inputs.set i { tx.Inputs[i] with Signature := s } }) := by
  rcases SendTx.setSignature_cases tx a s with ⟨hall, h⟩ | ⟨mid, x, post, hl, hmid, hx, h⟩
  · rw [h]
    refine ⟨?_, by simp⟩
    simp only [Bool.false_eq_true, false_iff, not_exists, not_and]
    exact hall
  · rw [h]
    refine ⟨?_, ?_⟩
    · simp only [true_iff]
      exact ⟨x, by simp [hl], hx⟩
    · intro _
      obtain ⟨Fee, Gas, Inputs, Outputs⟩ := tx
      simp only at hl
      subst hl
      have hget : ∀ h : mid.length < (mid ++ x :: post).length,
          (mid ++ x :: post)[mid.length] = x := by
        intro h
        rw [List.getElem_append_right (Nat.le_refl _)]
        simp
      refine ⟨mid.length, by simp, ?_, ?_, ?_⟩
      · simp only [hget]
        exact hx
      · intro j hj hlt
        rw [List.getElem_append_left hlt]
        exact hmid _ (List.getElem_mem _)
      · simp [TxInput.withSignature, hget]

theorem SendTx.setSignature_spec_witness :
    (sampleSendTx.SetSignature [2] (some sampleSig)).1 = true ∧
    ∃ i, ∃ h : i < sampleSendTx.Inputs.length,
      sampleSendTx.Inputs[i].Address = [2] ∧
      (∀ j, ∀ hj : j < sampleSendTx.Inputs.length, j < i →
        sampleSendTx.Inputs[j].Address ≠ [2]) ∧
      (sampleSendTx.SetSignature [2] (some sampleSig)).2 =
        { sampleSendTx with
          Inputs := sampleSendTx.Inputs.set i
            { sampleSendTx.Inputs[i] with Signature := some sampleSig } } :=
  ⟨by decide, (SendTx.setSignature_spec sampleSendTx [2] (some sampleSig)).2 (by decide)⟩

/-- C6: `SendTx.SetSignature` with an address that no input has returns false
and leaves the transaction, and so every signature in it, unchanged. -/
theorem SendTx.setSignature_not_found (tx : SendTx) (a : List Byte)
    (s : Option Basecoin.Signature) (h : ∀ x ∈ tx.Inputs, x.Address ≠ a) :
    tx.SetSignature a s = (false, tx) :=
  SendTx.setSignatureFrom_none tx a s tx.Inputs 0 h

theorem SendTx.setSignature_not_found_witness :
    (∀ x ∈ sampleSendTxSigned.Inputs, x.Address ≠ [5]) ∧
    sampleSendTxSigned.SetSignature [5] (some { Bytes := [8] }) = (false, sampleSendTxSigned) :=
  ⟨by decide, SendTx.setSignature_not_found sampleSendTxSigned [5] (some { Bytes := [8] })
    (by decide)⟩

/-! ### `SignedCobaltTx.SetSignature` -/

theorem SignedCobaltTx.findIdx_not_mem (name : String) (l : List String) (i : Nat)
    (h : name ∉ l) : SignedCobaltTx.findIdx name i l = -1 := by
  induction l generalizing i with
  | nil => rfl
  | cons p rest ih =>
    have hp : p ≠ name := fun hp => h (hp ▸ List.mem_cons_self _ _)
    simp only [SignedCobaltTx.findIdx, hp, if_false]
    exact ih (i + 1) (fun hm => h (List.mem_cons_of_mem _ hm))

theorem SignedCobaltTx.findIdx_first (name : String) (l : List String) (i idx : Nat)
    (h : IsFirstIdx l name idx) :
    SignedCobaltTx.findIdx name i l = ((i + idx : Nat) : Int) := by
  induction l generalizing i idx with
  | nil => simp [IsFirstIdx] at h
  | cons p rest ih =>
    obtain ⟨hidx, hfirst⟩ := h
    cases idx with
    | zero =>
      have hp : p = name := by simpa using hidx
      simp [SignedCobaltTx.findIdx, hp]
    | succ k =>
      have hp : p ≠ name := by
        intro hp
        exact hfirst 0 (Nat.succ_pos k) (by simp [hp])
      simp only [SignedCobaltTx.findIdx, hp, if_false]
      have hk : IsFirstIdx rest name k := by
        refine ⟨by simpa using hidx, ?_⟩
        intro j hj
        have := hfirst (j + 1) (Nat.succ_lt_succ hj)
        simpa using this
      rw [ih (i + 1) k hk]
      congr 1
      omega

theorem SignedCobaltTx.exists_first (name : String) (l : List String) (h : name ∈ l) :
    ∃ idx, IsFirstIdx l name idx := by
  induction l with
  | nil => simp at h
  | cons p rest ih =>
    by_cases hp : p = name
    · exact ⟨0, by simp [hp], by simp⟩
    · have hr : name ∈ rest := by
        rcases List.mem_cons.1 h with h | h
        · exact absurd h.symm hp
        · exact h
      obtain ⟨k, hk, hfirst⟩ := ih hr
      refine ⟨k + 1, by simpa using hk, ?_⟩
      intro j hj
      cases j with
      | zero => simpa using hp
      | succ j => simpa using hfirst j (Nat.lt_of_succ_lt_succ hj)

theorem IsFirstIdx.lt_length {l : List String} {name : String} {idx : Nat}
    (h : IsFirstIdx l name idx) : idx < l.length := by
  by_contra hc
  have := h.1
  rw [List.getElem?_eq_none (Nat.le_of_not_lt hc)] at this
  exact Option.noConfusion this

theorem SignedCobaltTx.allocate_transaction (tx : SignedCobaltTx) :
    tx.allocate.Transaction = tx.Transaction := by
  unfold SignedCobaltTx.allocate
  split_ifs <;> rfl

theorem SignedCobaltTx.allocate_length (tx : SignedCobaltTx) :
    tx.allocate.Signatures.length =
      if tx.Signatures.length = 0 then tx.Transaction.Participants.length
      else tx.Signatures.length := by
  unfold SignedCobaltTx.allocate
  split_ifs <;> simp

/-- What `SetSignature` does for an unknown name. -/
theorem SignedCobaltTx.setSignature_of_not_mem (tx : SignedCobaltTx) (name : String)
    (sig : Option Signature) (h : name ∉ tx.Transaction.Participants) :
    tx.SetSignature name sig =
      Outcome.panicked (Panic.message "Couldn't set signature") tx := by
  unfold SignedCobaltTx.SetSignature
  simp [SignedCobaltTx.findIdx_not_mem name _ 0 h]

/-- What `SetSignature` does for a name first found at `idx` and a non-nil
signature. -/
theorem SignedCobaltTx.setSignature_of_first (tx : SignedCobaltTx) (name : String)
    (s : Signature) (idx : Nat) (h : IsFirstIdx tx.Transaction.Participants name idx) :
    tx.SetSignature name (some s) =
      if idx < tx.allocate.Signatures.length then
        Outcome.returned true
          { tx.allocate with Signatures := tx.allocate.Signatures.set idx (fmtX s.Bytes) }
      else
        Outcome.panicked Panic.indexOutOfRange tx.allocate := by
  unfold SignedCobaltTx.SetSignature
  have hidx := SignedCobaltTx.findIdx_first name _ 0 idx h
  simp only [Nat.zero_add] at hidx
  have hne : ((idx : Nat) : Int) ≠ -1 := by omega
  simp only [hidx, hne, if_false, Int.toNat_ofNat]

/-- The only way `SetSignature` returns. -/
theorem SignedCobaltTx.setSignature_returned (tx : SignedCobaltTx) (name : String)
    (sig : Option Signature) (b : Bool) (tx' : SignedCobaltTx)
    (h : tx.SetSignature name sig = Outcome.returned b tx') :
    b = true ∧ tx'.Transaction = tx.Transaction ∧
      tx'.Signatures.length = tx.allocate.Signatures.length := by
  cases sig with
  | none =>
    unfold SignedCobaltTx.SetSignature at h
    simp only at h
    split_ifs at h
  | some s =>
    unfold SignedCobaltTx.SetSignature at h
    simp only at h
    split_ifs at h with h1 h2
    simp only [Outcome.returned.injEq] at h
    obtain ⟨hb, ht⟩ := h
    subst ht
    exact ⟨hb.symm, SignedCobaltTx.allocate_transaction tx, by simp⟩

theorem fmtXChars_length (bs : List Byte) : (fmtXChars bs).length = 2 * bs.length := by
  induction bs with
  | nil => rfl
  | cons b bs ih => simp only [fmtXChars, List.length_cons, ih]; omega

theorem hexDigit_mem (n : Nat) (h : n < 16) : hexDigit n ∈ "0123456789ABCDEF".toList := by
  interval_cases n <;> decide

theorem fmtXChars_mem (bs : List Byte) :
    ∀ c ∈ fmtXChars bs, c ∈ "0123456789ABCDEF".toList := by
  induction bs with
  | nil => intro c hc; simp [fmtXChars] at hc
  | cons b bs ih =>
    intro c hc
    simp only [fmtXChars, List.mem_cons] at hc
    rcases hc with hc | hc | hc
    · subst hc
      exact hexDigit_mem _ (by have := b.isLt; omega)
    · subst hc
      exact hexDigit_mem _ (by omega)
    · exact ih c hc

theorem SignedCobaltTx.allocate_of_ne (tx : SignedCobaltTx) (h : tx.Signatures.length ≠ 0) :
    tx.allocate = tx := by
  simp only [SignedCobaltTx.allocate, h, if_false]

theorem SignedCobaltTx.allocate_length_of_aligned (tx : SignedCobaltTx)
    (hal : tx.Signatures.length = 0 ∨
      tx.Signatures.length = tx.Transaction.Participants.length) :
    tx.allocate.Signatures.length = tx.Transaction.Participants.length := by
  rw [SignedCobaltTx.allocate_length]
  split_ifs with h
  · rfl
  · rcases hal with h0 | h1
    · exact absurd h0 h
    · exact h1

/-- What `SetSignature` does on unallocated or aligned slots for a name first
found at `idx` and a non-nil signature. -/
theorem SignedCobaltTx.setSignature_of_first_aligned (tx : SignedCobaltTx) (name : String)
    (s : Signature) (idx : Nat) (h : IsFirstIdx tx.Transaction.Participants name idx)
    (hal : tx.Signatures.length = 0 ∨
      tx.Signatures.length = tx.Transaction.Participants.length) :
    tx.SetSignature name (some s) =
      Outcome.returned true
        { tx.allocate with Signatures := tx.allocate.Signatures.set idx (fmtX s.Bytes) } := by
  rw [SignedCobaltTx.setSignature_of_first tx name s idx h]
  have hlt : idx < tx.allocate.Signatures.length := by
    rw [SignedCobaltTx.allocate_length_of_aligned tx hal]
    exact h.lt_length
  simp only [hlt, if_true]

/-- C7, as stated, fails for a nil signature: with the known name `Citibank`
and unallocated slots, `SetSignature(name, nil)` allocates the two slots and
then panics at `sig.Bytes()` instead of returning true. -/
theorem SignedCobaltTx.setSignature_nil_counterexample :
    "Citibank" ∈ sampleSigned.Transaction.Participants ∧
    sampleSigned.Signatures.length = 0 ∧
    sampleSigned.SetSignature "Citibank" none =
      Outcome.panicked Panic.nilDereference { sampleSigned with Signatures := ["", ""] } := by
  decide

/-- C7, amended: `SignedCobaltTx.SetSignature` with a name that is not among
the participants panics with the receiver unmodified, whatever the signature;
with a name among the participants, slots that are unallocated or as many as
the participants, and a signature that is not nil, it returns true. -/
theorem SignedCobaltTx.setSignature_participant (tx : SignedCobaltTx) (name : String) :
    (name ∉ tx.Transaction.Participants →
      ∀ sig : Option Signature,
        tx.SetSignature name sig =
          Outcome.panicked (Panic.message "Couldn't set signature") tx) ∧
    (name ∈ tx.Transaction.Participants →
      (tx.Signatures.length = 0 ∨
        tx.Signatures.length = tx.Transaction.Participants.length) →
      ∀ s : Signature, ∃ tx', tx.SetSignature name (some s) = Outcome.returned true tx') := by
  constructor
  · intro h sig
    exact SignedCobaltTx.setSignature_of_not_mem tx name sig h
  · intro h hal s
    obtain ⟨idx, hidx⟩ := SignedCobaltTx.exists_first name _ h
    exact ⟨_, SignedCobaltTx.setSignature_of_first_aligned tx name s idx hidx hal⟩

theorem SignedCobaltTx.setSignature_participant_witness :
    ("HSBC" ∉ sampleSigned.Transaction.Participants ∧
      sampleSigned.SetSignature "HSBC" (some sampleSig) =
        Outcome.panicked (Panic.message "Couldn't set signature") sampleSigned) ∧
    ("Citibank" ∈ sampleSigned.Transaction.Participants ∧
      (sampleSigned.Signatures.length = 0 ∨
        sampleSigned.Signatures.length = sampleSigned.Transaction.Participants.length) ∧
      ∃ tx', sampleSigned.SetSignature "Citibank" (some sampleSig) =
        Outcome.returned true tx') :=
  ⟨⟨by decide,
      (SignedCobaltTx.setSignature_participant sampleSigned "HSBC").1 (by decide)
        (some sampleSig)⟩,
    ⟨by decide, by decide,
      (SignedCobaltTx.setSignature_participant sampleSigned "Citibank").2 (by decide)
        (by decide) sampleSig⟩⟩

/-- C8, as stated, fails when a name occurs twice: with participants
`["Citibank", "Citibank"]` the name occurs at index 1, but the call writes slot
0, so slot 1 stays empty and the other slot, 0, is not empty. -/
theorem SignedCobaltTx.setSignature_duplicate_counterexample :
    sampleDuplicate.Signatures.length = 0 ∧
    sampleDuplicate.Transaction.Participants[1]? = some "Citibank" ∧
    sampleDuplicate.SetSignature "Citibank" (some sampleSig) =
      Outcome.returned true { sampleDuplicate with Signatures := ["AB05", ""] } ∧
    ({ sampleDuplicate with Signatures := ["AB05", ""] } : SignedCobaltTx).Signatures[1]? ≠
      some (fmtX sampleSig.Bytes) ∧
    ({ sampleDuplicate with Signatures := ["AB05", ""] } : SignedCobaltTx).Signatures[0]? ≠
      some "" := by
  decide

/-- C8, amended: on unallocated slots, for a name whose first occurrence among
the participants is at `idx` and a signature `s`, `SetSignature` returns with
as many slots as participants, slot `idx` holding the upper-case hexadecimal
rendering of `s.Bytes` (two digits per byte) and every other slot empty; the
document itself is unchanged. -/
theorem SignedCobaltTx.setSignature_allocates (tx : SignedCobaltTx) (name : String)
    (s : Signature) (idx : Nat) (hun : tx.Signatures.length = 0)
    (hidx : IsFirstIdx tx.Transaction.Participants name idx) :
    ∃ tx', tx.SetSignature name (some s) = Outcome.returned true tx' ∧
      tx'.Transaction = tx.Transaction ∧
      tx'.Signatures.length = tx.Transaction.Participants.length ∧
      tx'.Signatures[idx]? = some (fmtX s.Bytes) ∧
      (∀ j, j < tx.Transaction.Participants.length → j ≠ idx →
        tx'.Signatures[j]? = some "") ∧
      (fmtX s.Bytes).length = 2 * s.Bytes.length ∧
      (∀ c ∈ (fmtX s.Bytes).toList, c ∈ "0123456789ABCDEF".toList) := by
  have hal : tx.allocate.Signatures =
      List.replicate tx.Transaction.Participants.length "" := by
    simp [SignedCobaltTx.allocate, hun]
  have hlt := hidx.lt_length
  refine ⟨_, SignedCobaltTx.setSignature_of_first_aligned tx name s idx hidx (Or.inl hun),
    SignedCobaltTx.allocate_transaction tx, ?_, ?_, ?_, ?_, ?_⟩
  · simp [hal]
  · simp only [hal]
    rw [List.getElem?_set_self (by simpa using hlt)]
  · intro j hj hne
    simp only [hal]
    rw [List.getElem?_set_ne (Ne.symm hne), List.getElem?_replicate_of_lt hj]
  · simp [fmtX, String.length, fmtXChars_length]
  · intro c hc
    exact fmtXChars_mem s.Bytes c (by simpa [fmtX] using hc)

theorem SignedCobaltTx.setSignature_allocates_witness :
    sampleSigned.Signatures.length = 0 ∧
    IsFirstIdx sampleSigned.Transaction.Participants "Deutsche Bank" 1 ∧
    ∃ tx', sampleSigned.SetSignature "Deutsche Bank" (some sampleSig) =
        Outcome.returned true tx' ∧
      tx'.Transaction = sampleSigned.Transaction ∧
      tx'.Signatures.length = sampleSigned.Transaction.Participants.length ∧
      tx'.Signatures[1]? = some (fmtX sampleSig.Bytes) ∧
      (∀ j, j < sampleSigned.Transaction.Participants.length → j ≠ 1 →
        tx'.Signatures[j]? = some "") ∧
      (fmtX sampleSig.Bytes).length = 2 * sampleSig.Bytes.length ∧
      (∀ c ∈ (fmtX sampleSig.Bytes).toList, c ∈ "0123456789ABCDEF".toList) :=
  have h : IsFirstIdx sampleSigned.Transaction.Participants "Deutsche Bank" 1 :=
    ⟨by decide, by decide⟩
  ⟨by decide, h,
    SignedCobaltTx.setSignature_allocates sampleSigned "Deutsche Bank" sampleSig 1
      (by decide) h⟩

/-- C9, as stated, fails: a document with three signature slots and two
participants keeps its three slots when `SetSignature` returns. -/
theorem SignedCobaltTx.setSignature_misaligned_counterexample :
    sampleMisaligned.SetSignature "Citibank" (some sampleSig) =
      Outcome.returned true { sampleMisaligned with Signatures := ["AB05", "3043", "3044"] } ∧
    ({ sampleMisaligned with Signatures := ["AB05", "3043", "3044"] } :
        SignedCobaltTx).Signatures.length ≠
      ({ sampleMisaligned with Signatures := ["AB05", "3043", "3044"] } :
        SignedCobaltTx).Transaction.Participants.length := by
  decide

/-- C9, amended: when the signature slots are unallocated or as many as the
participants before the call, every call of `SetSignature` that returns
leaves as many slots as participants. -/
theorem SignedCobaltTx.setSignature_keeps_alignment (tx : SignedCobaltTx) (name : String)
    (sig : Option Signature) (b : Bool) (tx' : SignedCobaltTx)
    (hal : tx.Signatures.length = 0 ∨
      tx.Signatures.length = tx.Transaction.Participants.length)
    (h : tx.SetSignature name sig = Outcome.returned b tx') :
    tx'.Signatures.length = tx'.Transaction.Participants.length := by
  obtain ⟨_, ht, hl⟩ := SignedCobaltTx.setSignature_returned tx name sig b tx' h
  rw [hl, ht, SignedCobaltTx.allocate_length_of_aligned tx hal]

theorem SignedCobaltTx.setSignature_keeps_alignment_witness :
    (sampleSigned.Signatures.length = 0 ∨
      sampleSigned.Signatures.length = sampleSigned.Transaction.Participants.length) ∧
    sampleSigned.SetSignature "Citibank" (some sampleSig) =
      Outcome.returned true { sampleSigned with Signatures := ["AB05", ""] } ∧
    ({ sampleSigned with Signatures := ["AB05", ""] } : SignedCobaltTx).Signatures.length =
      ({ sampleSigned with Signatures := ["AB05", ""] } :
        SignedCobaltTx).Transaction.Participants.length :=
  ⟨by decide, by decide,
    SignedCobaltTx.setSignature_keeps_alignment sampleSigned "Citibank" (some sampleSig) true
      { sampleSigned with Signatures := ["AB05", ""] } (by decide) (by decide)⟩

/-- C10: on unallocated or aligned slots, signing a participant `p` with `s1`
and then with `s2` ends in exactly the state that signing `p` with `s2` alone
gives: the number of slots does not grow, the slot of `p` holds the rendering
of `s2`, every other slot is as after the first call; signing twice with the
same signature equals signing once. -/
theorem SignedCobaltTx.setSignature_overwrite (tx : SignedCobaltTx) (p : String)
    (s1 s2 : Signature)
    (hal : tx.Signatures.length = 0 ∨
      tx.Signatures.length = tx.Transaction.Participants.length)
    (hp : p ∈ tx.Transaction.Participants) :
    ∃ t1 t2, tx.SetSignature p (some s1) = Outcome.returned true t1 ∧
      t1.SetSignature p (some s2) = Outcome.returned true t2 ∧
      tx.SetSignature p (some s2) = Outcome.returned true t2 ∧
      t2.Signatures.length = t1.Signatures.length ∧
      (∃ idx, idx < t2.Signatures.length ∧ t2.Signatures[idx]? = some (fmtX s2.Bytes) ∧
        ∀ j, j ≠ idx → t2.Signatures[j]? = t1.Signatures[j]?) ∧
      (s1 = s2 → t1 = t2) := by
  obtain ⟨idx, hidx⟩ := SignedCobaltTx.exists_first p _ hp
  have hlen := SignedCobaltTx.allocate_length_of_aligned tx hal
  have hlt : idx < tx.allocate.Signatures.length := by
    rw [hlen]; exact hidx.lt_length
  have hpos : 0 < tx.Transaction.Participants.length :=
    Nat.lt_of_le_of_lt (Nat.zero_le _) hidx.lt_length
  -- the state after the first call
  have h1 := SignedCobaltTx.setSignature_of_first_aligned tx p s1 idx hidx hal
  have h2 := SignedCobaltTx.setSignature_of_first_aligned tx p s2 idx hidx hal
  have ht1 : ({ tx.allocate with
      Signatures := tx.allocate.Signatures.set idx (fmtX s1.Bytes) } :
        SignedCobaltTx).allocate =
      { tx.allocate with Signatures := tx.allocate.Signatures.set idx (fmtX s1.Bytes) } := by
    have hne : (tx.allocate.Signatures.set idx (fmtX s1.Bytes)).length ≠ 0 := by
      rw [List.length_set, hlen]; omega
    exact SignedCobaltTx.allocate_of_ne _ hne
  have h12 := SignedCobaltTx.setSignature_of_first_aligned
    { tx.allocate with Signatures := tx.allocate.Signatures.set idx (fmtX s1.Bytes) } p s2 idx
    (by simpa [SignedCobaltTx.allocate_transaction] using hidx)
    (Or.inr (by simp [SignedCobaltTx.allocate_transaction, hlen]))
  rw [ht1] at h12
  simp only [List.set_set] at h12
  refine ⟨_, _, h1, h12, h2, by simp, ⟨idx, by simpa using hlt, ?_, ?_⟩, ?_⟩
  · simp only
    rw [List.getElem?_set_self hlt]
  · intro j hj
    simp only
    rw [List.getElem?_set_ne (Ne.symm hj), List.getElem?_set_ne (Ne.symm hj)]
  · intro h
    subst h
    rfl

theorem SignedCobaltTx.setSignature_overwrite_witness :
    (sampleSigned.Signatures.length = 0 ∨
      sampleSigned.Signatures.length = sampleSigned.Transaction.Participants.length) ∧
    "Deutsche Bank" ∈ sampleSigned.Transaction.Participants ∧
    ∃ t1 t2, sampleSigned.SetSignature "Deutsche Bank" (some sampleSig) =
        Outcome.returned true t1 ∧
      t1.SetSignature "Deutsche Bank" (some sampleSig2) = Outcome.returned true t2 ∧
      sampleSigned.SetSignature "Deutsche Bank" (some sampleSig2) = Outcome.returned true t2 ∧
      t2.Signatures.length = t1.Signatures.length ∧
      (∃ idx, idx < t2.Signatures.length ∧
        t2.Signatures[idx]? = some (fmtX sampleSig2.Bytes) ∧
        ∀ j, j ≠ idx → t2.Signatures[j]? = t1.Signatures[j]?) ∧
      (sampleSig = sampleSig2 → t1 = t2) :=
  ⟨by decide, by decide,
    SignedCobaltTx.setSignature_overwrite sampleSigned "Deutsche Bank" sampleSig sampleSig2
      (by decide) (by decide)⟩


/-! ### Sequences of `SetSignature` calls -/

theorem IsFirstIdx.name_eq {l : List String} {p q : String} {i : Nat}
    (hp : IsFirstIdx l p i) (hq : IsFirstIdx l q i) : p = q := by
  have := hp.1.symm.trans hq.1
  exact Option.some.inj this

/-- One call on unallocated or aligned slots, for a name first found at `idx`:
the result, and the facts about the new receiver that the next call needs. -/
theorem SignedCobaltTx.setSignature_step (tx : SignedCobaltTx) (name : String)
    (s : Signature) (idx : Nat) (h : IsFirstIdx tx.Transaction.Participants name idx)
    (hal : tx.Signatures.length = 0 ∨
      tx.Signatures.length = tx.Transaction.Participants.length) :
    tx.SetSignature name (some s) =
        Outcome.returned true (tx.allocate.withSlot idx (fmtX s.Bytes)) ∧
      (tx.allocate.withSlot idx (fmtX s.Bytes)).Transaction = tx.Transaction ∧
      (tx.allocate.withSlot idx (fmtX s.Bytes)).Signatures.length =
        tx.Transaction.Participants.length ∧
      (tx.allocate.withSlot idx (fmtX s.Bytes)).allocate =
        tx.allocate.withSlot idx (fmtX s.Bytes) := by
  have hlen := SignedCobaltTx.allocate_length_of_aligned tx hal
  have hlt := h.lt_length
  have hl : (tx.allocate.withSlot idx (fmtX s.Bytes)).Signatures.length =
      tx.Transaction.Participants.length := by
    simp [SignedCobaltTx.withSlot, hlen]
  refine ⟨SignedCobaltTx.setSignature_of_first_aligned tx name s idx h hal,
    SignedCobaltTx.allocate_transaction tx, hl, ?_⟩
  exact SignedCobaltTx.allocate_of_ne _ (by rw [hl]; omega)

/-- Two calls in a row on unallocated or aligned slots. -/
theorem SignedCobaltTx.setSignature_then (tx : SignedCobaltTx) (p q : String)
    (s1 s2 : Signature) (i j : Nat)
    (hp : IsFirstIdx tx.Transaction.Participants p i)
    (hq : IsFirstIdx tx.Transaction.Participants q j)
    (hal : tx.Signatures.length = 0 ∨
      tx.Signatures.length = tx.Transaction.Participants.length) :
    tx.SetSignature p (some s1) =
        Outcome.returned true (tx.allocate.withSlot i (fmtX s1.Bytes)) ∧
      (tx.allocate.withSlot i (fmtX s1.Bytes)).SetSignature q (some s2) =
        Outcome.returned true
          ((tx.allocate.withSlot i (fmtX s1.Bytes)).withSlot j (fmtX s2.Bytes)) := by
  obtain ⟨h1, ht, hl, ha⟩ := SignedCobaltTx.setSignature_step tx p s1 i hp hal
  refine ⟨h1, ?_⟩
  have hq1 : IsFirstIdx (tx.allocate.withSlot i (fmtX s1.Bytes)).Transaction.Participants q j := by
    rw [ht]; exact hq
  obtain ⟨h2, -, -, -⟩ := SignedCobaltTx.setSignature_step _ q s2 j hq1
    (Or.inr (by rw [hl, ht]))
  rw [h2, ha]

theorem SignedCobaltTx.withSlot_comm (tx : SignedCobaltTx) (i j : Nat) (v w : String)
    (h : i ≠ j) : (tx.withSlot i v).withSlot j w = (tx.withSlot j w).withSlot i v := by
  simp only [SignedCobaltTx.withSlot, List.set_comm v w tx.Signatures h]

theorem SignedCobaltTx.setSignatures_cons (tx tx1 : SignedCobaltTx) (name : String)
    (s : Signature) (rest : List (String × Signature))
    (h : tx.SetSignature name (some s) = Outcome.returned true tx1) :
    tx.SetSignatures ((name, s) :: rest) = tx1.SetSignatures rest := by
  simp only [SignedCobaltTx.SetSignatures, h]

/-- A sequence of calls with known names on unallocated or aligned slots
returns. -/
theorem SignedCobaltTx.setSignatures_returns (l : List (String × Signature)) :
    ∀ tx : SignedCobaltTx,
      (tx.Signatures.length = 0 ∨
        tx.Signatures.length = tx.Transaction.Participants.length) →
      (∀ x ∈ l, x.1 ∈ tx.Transaction.Participants) →
      ∃ t, tx.SetSignatures l = Outcome.returned true t := by
  induction l with
  | nil => intro tx _ _; exact ⟨tx, rfl⟩
  | cons x l ih =>
    intro tx hal hn
    obtain ⟨name, s⟩ := x
    obtain ⟨idx, hidx⟩ := SignedCobaltTx.exists_first name _ (hn _ (List.mem_cons_self _ _))
    obtain ⟨h1, ht, hl, -⟩ := SignedCobaltTx.setSignature_step tx name s idx hidx hal
    rw [SignedCobaltTx.setSignatures_cons tx _ name s l h1]
    apply ih _ (Or.inr (by rw [hl, ht]))
    intro y hy
    rw [ht]
    exact hn y (List.mem_cons_of_mem _ hy)

/-- Permuting a sequence of calls in which no name comes with two different
signatures does not change its outcome. -/
theorem SignedCobaltTx.setSignatures_perm {l l' : List (String × Signature)}
    (hperm : l.Perm l') :
    ∀ tx : SignedCobaltTx,
      (tx.Signatures.length = 0 ∨
        tx.Signatures.length = tx.Transaction.Participants.length) →
      (∀ x ∈ l, x.1 ∈ tx.Transaction.Participants) →
      (∀ x ∈ l, ∀ y ∈ l, x.1 = y.1 → x.2 = y.2) →
      tx.SetSignatures l = tx.SetSignatures l' := by
  induction hperm with
  | nil => intro _ _ _ _; rfl
  | @cons x l l' _ ih =>
    intro tx hal hn hc
    obtain ⟨name, s⟩ := x
    obtain ⟨idx, hidx⟩ := SignedCobaltTx.exists_first name _ (hn _ (List.mem_cons_self _ _))
    obtain ⟨h1, ht, hl, -⟩ := SignedCobaltTx.setSignature_step tx name s idx hidx hal
    rw [SignedCobaltTx.setSignatures_cons tx _ name s l h1,
      SignedCobaltTx.setSignatures_cons tx _ name s l' h1]
    apply ih _ (Or.inr (by rw [hl, ht]))
    · intro y hy
      rw [ht]
      exact hn y (List.mem_cons_of_mem _ hy)
    · intro y hy z hz
      exact hc y (List.mem_cons_of_mem _ hy) z (List.mem_cons_of_mem _ hz)
  | @swap x y l =>
    intro tx hal hn hc
    obtain ⟨p, s1⟩ := x
    obtain ⟨q, s2⟩ := y
    have hpm : p ∈ tx.Transaction.Participants := hn (p, s1) (by simp)
    have hqm : q ∈ tx.Transaction.Participants := hn (q, s2) (by simp)
    by_cases hpq : p = q
    · have hs : s1 = s2 := hc (p, s1) (by simp) (q, s2) (by simp) hpq
      subst hpq; subst hs; rfl
    · obtain ⟨i, hi⟩ := SignedCobaltTx.exists_first p _ hpm
      obtain ⟨j, hj⟩ := SignedCobaltTx.exists_first q _ hqm
      have hij : i ≠ j := by
        intro h
        subst h
        exact hpq (hi.name_eq hj)
      obtain ⟨a1, a2⟩ := SignedCobaltTx.setSignature_then tx q p s2 s1 j i hj hi hal
      obtain ⟨b1, b2⟩ := SignedCobaltTx.setSignature_then tx p q s1 s2 i j hi hj hal
      rw [SignedCobaltTx.setSignatures_cons tx _ q s2 _ a1,
        SignedCobaltTx.setSignatures_cons _ _ p s1 _ a2,
        SignedCobaltTx.setSignatures_cons tx _ p s1 _ b1,
        SignedCobaltTx.setSignatures_cons _ _ q s2 _ b2,
        SignedCobaltTx.withSlot_comm _ i j _ _ hij]
  | @trans l₁ l₂ l₃ h₁₂ _ ih₁ ih₂ =>
    intro tx hal hn hc
    rw [ih₁ tx hal hn hc]
    apply ih₂ tx hal
    · intro x hx
      exact hn x (h₁₂.mem_iff.2 hx)
    · intro x hx y hy
      exact hc x (h₁₂.mem_iff.2 hx) y (h₁₂.mem_iff.2 hy)

/-- C11: with participants `[A, B]`, `A ≠ B`, and unallocated slots, signing
`B` then `A` ends in the same receiver (same `Signatures`, same
`Transaction`) as signing `A` then `B`: the slots are the renderings of `sA`
and `sB`, in the order of the participants. -/
theorem SignedCobaltTx.setSignature_commutes (tx : SignedCobaltTx) (A B : String)
    (sA sB : Signature) (hp : tx.Transaction.Participants = [A, B]) (hne : A ≠ B)
    (hun : tx.Signatures.length = 0) :
    ∃ t1 t2 t, tx.SetSignature B (some sB) = Outcome.returned true t1 ∧
      t1.SetSignature A (some sA) = Outcome.returned true t ∧
      tx.SetSignature A (some sA) = Outcome.returned true t2 ∧
      t2.SetSignature B (some sB) = Outcome.returned true t ∧
      t.Signatures = [fmtX sA.Bytes, fmtX sB.Bytes] ∧
      t.Transaction = tx.Transaction := by
  have hA : IsFirstIdx tx.Transaction.Participants A 0 := by
    rw [hp]; exact ⟨rfl, by intro j hj; omega⟩
  have hB : IsFirstIdx tx.Transaction.Participants B 1 := by
    rw [hp]
    refine ⟨rfl, ?_⟩
    intro j hj
    have hj0 : j = 0 := by omega
    subst hj0
    simpa using hne
  obtain ⟨a1, a2⟩ := SignedCobaltTx.setSignature_then tx B A sB sA 1 0 hB hA (Or.inl hun)
  obtain ⟨b1, b2⟩ := SignedCobaltTx.setSignature_then tx A B sA sB 0 1 hA hB (Or.inl hun)
  rw [SignedCobaltTx.withSlot_comm _ 1 0 _ _ (by decide)] at a2
  refine ⟨_, _, _, a1, a2, b1, b2, ?_, ?_⟩
  · simp [SignedCobaltTx.withSlot, SignedCobaltTx.allocate, hun, hp]
  · simp [SignedCobaltTx.withSlot, SignedCobaltTx.allocate_transaction]

theorem SignedCobaltTx.setSignature_commutes_witness :
    sampleSigned.Transaction.Participants = ["Citibank", "Deutsche Bank"] ∧
    "Citibank" ≠ "Deutsche Bank" ∧ sampleSigned.Signatures.length = 0 ∧
    ∃ t1 t2 t, sampleSigned.SetSignature "Deutsche Bank" (some sampleSig2) =
        Outcome.returned true t1 ∧
      t1.SetSignature "Citibank" (some sampleSig) = Outcome.returned true t ∧
      sampleSigned.SetSignature "Citibank" (some sampleSig) = Outcome.returned true t2 ∧
      t2.SetSignature "Deutsche Bank" (some sampleSig2) = Outcome.returned true t ∧
      t.Signatures = [fmtX sampleSig.Bytes, fmtX sampleSig2.Bytes] ∧
      t.Transaction = sampleSigned.Transaction :=
  ⟨rfl, by decide, rfl,
    SignedCobaltTx.setSignature_commutes sampleSigned "Citibank" "Deutsche Bank" sampleSig
      sampleSig2 rfl (by decide) rfl⟩

/-- C12, as stated, fails: when the same participant signs twice with different
signatures the last call wins, so the two orders of the pairs
`(Citibank, AB05)` and `(Citibank, 3044)` end in different slots. -/
theorem SignedCobaltTx.setSignatures_resign_counterexample :
    sampleSigned.Signatures.length = 0 ∧
    (∀ x ∈ sampleResign, x.1 ∈ sampleSigned.Transaction.Participants) ∧
    sampleResign.Perm sampleResign.reverse ∧
    sampleSigned.SetSignatures sampleResign =
      Outcome.returned true { sampleSigned with Signatures := ["3044", ""] } ∧
    sampleSigned.SetSignatures sampleResign.reverse =
      Outcome.returned true { sampleSigned with Signatures := ["AB05", ""] } ∧
    (["3044", ""] : List String) ≠ ["AB05", ""] :=
  ⟨by decide, by decide, List.reverse_perm _ |>.symm, by decide, by decide, by decide⟩

/-- C12, amended: on unallocated slots, for a list of (participant, signature)
pairs whose names all occur among the participants and in which no name comes
with two different signatures, the calls of `SetSignature` for the pairs
return and end in the same receiver in every order of the list. -/
theorem SignedCobaltTx.setSignatures_order_independent (tx : SignedCobaltTx)
    (l l' : List (String × Signature)) (hun : tx.Signatures.length = 0)
    (hnames : ∀ x ∈ l, x.1 ∈ tx.Transaction.Participants)
    (hcons : ∀ x ∈ l, ∀ y ∈ l, x.1 = y.1 → x.2 = y.2)
    (hperm : l.Perm l') :
    ∃ t, tx.SetSignatures l = Outcome.returned true t ∧
      tx.SetSignatures l' = Outcome.returned true t := by
  obtain ⟨t, ht⟩ := SignedCobaltTx.setSignatures_returns l tx (Or.inl hun) hnames
  refine ⟨t, ht, ?_⟩
  rw [← SignedCobaltTx.setSignatures_perm hperm tx (Or.inl hun) hnames hcons]
  exact ht

theorem SignedCobaltTx.setSignatures_order_independent_witness :
    sampleSigned.Signatures.length = 0 ∧
    (∀ x ∈ [("Citibank", sampleSig), ("Deutsche Bank", sampleSig2)],
      x.1 ∈ sampleSigned.Transaction.Participants) ∧
    (∀ x ∈ [("Citibank", sampleSig), ("Deutsche Bank", sampleSig2)],
      ∀ y ∈ [("Citibank", sampleSig), ("Deutsche Bank", sampleSig2)],
        x.1 = y.1 → x.2 = y.2) ∧
    [("Citibank", sampleSig), ("Deutsche Bank", sampleSig2)].Perm
      [("Deutsche Bank", sampleSig2), ("Citibank", sampleSig)] ∧
    ∃ t, sampleSigned.SetSignatures [("Citibank", sampleSig), ("Deutsche Bank", sampleSig2)] =
        Outcome.returned true t ∧
      sampleSigned.SetSignatures [("Deutsche Bank", sampleSig2), ("Citibank", sampleSig)] =
        Outcome.returned true t :=
  ⟨rfl, by decide, by decide, List.Perm.swap _ _ _,
    SignedCobaltTx.setSignatures_order_independent sampleSigned _ _ rfl (by decide)
      (by decide) (List.Perm.swap _ _ _)⟩


/-! ### `SignBytes` of the cobalt variants, `TxID` -/

theorem SignedCobaltTx.signBytes_result (j : Json) (tx : SignedCobaltTx) (chainID : String) :
    (tx.SignBytes j chainID).result =
      (match j.MarshalCobaltTx tx.Transaction with
        | Except.error err => Except.error (Panic.message err)
        | Except.ok txJSON => Except.ok txJSON) := by
  unfold SignedCobaltTx.SignBytes
  cases j.MarshalCobaltTx tx.Transaction <;> rfl

/-- C13: the result of `SignedCobaltTx.SignBytes` (the bytes, or the panic of
a failed `json.Marshal`) is a function of the `Transaction` field alone: it is
the same for two documents with equal `Transaction` whatever their
`Signatures`, and the same before and after every `SetSignature` call that
returns; the call leaves the receiver as it was. -/
theorem SignedCobaltTx.signBytes_ignores_signatures (j : Json) :
    (∃ f : CobaltTx → Except Panic (List Byte),
      ∀ (tx : SignedCobaltTx) (chainID : String),
        (tx.SignBytes j chainID).result = f tx.Transaction) ∧
    (∀ (tx₁ tx₂ : SignedCobaltTx) (chainID : String),
      tx₁.Transaction = tx₂.Transaction →
        (tx₁.SignBytes j chainID).result = (tx₂.SignBytes j chainID).result) ∧
    (∀ (tx tx' : SignedCobaltTx) (name : String) (sig : Option Signature) (b : Bool)
      (chainID : String),
      tx.SetSignature name sig = Outcome.returned b tx' →
        (tx'.SignBytes j chainID).result = (tx.SignBytes j chainID).result) ∧
    (∀ (tx : SignedCobaltTx) (chainID : String),
      (∃ bytes, tx.SignBytes j chainID = Outcome.returned bytes tx) ∨
        (∃ cause, tx.SignBytes j chainID = Outcome.panicked cause tx)) := by
  refine ⟨⟨fun c => match j.MarshalCobaltTx c with
      | Except.error err => Except.error (Panic.message err)
      | Except.ok txJSON => Except.ok txJSON, ?_⟩, ?_, ?_, ?_⟩
  · intro tx chainID
    exact SignedCobaltTx.signBytes_result j tx chainID
  · intro tx₁ tx₂ chainID h
    rw [SignedCobaltTx.signBytes_result, SignedCobaltTx.signBytes_result, h]
  · intro tx tx' name sig b chainID h
    obtain ⟨_, ht, _⟩ := SignedCobaltTx.setSignature_returned tx name sig b tx' h
    rw [SignedCobaltTx.signBytes_result, SignedCobaltTx.signBytes_result, ht]
  · intro tx chainID
    unfold SignedCobaltTx.SignBytes
    cases j.MarshalCobaltTx tx.Transaction with
    | error err => right; exact ⟨_, rfl⟩
    | ok bytes => left; exact ⟨_, rfl⟩

theorem SignedCobaltTx.signBytes_ignores_signatures_witness :
    sampleSigned.Transaction = sampleMisaligned.Transaction ∧
    (sampleSigned.SignBytes sampleJson "test_chain_id").result =
      (sampleMisaligned.SignBytes sampleJson "test_chain_id").result :=
  ⟨rfl, (SignedCobaltTx.signBytes_ignores_signatures sampleJson).2.1 sampleSigned
    sampleMisaligned "test_chain_id" rfl⟩

/-- C14: `BinarySignedCobaltTx.SignBytes` returns exactly `tx.Bytes`, for
every chain identifier, and leaves the receiver unchanged. -/
theorem BinarySignedCobaltTx.signBytes_identity (tx : BinarySignedCobaltTx)
    (chainID : String) :
    (tx.SignBytes chainID).1 = tx.Bytes ∧ (tx.SignBytes chainID).2 = tx :=
  ⟨rfl, rfl⟩

/-- C15, as stated, fails for the two cobalt variants: the sign bytes of the
sample pre-encoded transaction are its payload `7B 7D`, and those of the
sample signed document are its JSON encoding; neither begins with the
encoding of the chain identifier. -/
theorem signBytes_no_chainID_counterexample :
    (sampleBinary.SignBytes "test_chain_id").1 = [123, 125] ∧
    ¬ (sampleWire.BinaryString "test_chain_id" <+: (sampleBinary.SignBytes "test_chain_id").1) ∧
    (sampleSigned.SignBytes sampleJson "test_chain_id").result =
      (sampleSigned.SignBytes sampleJson "other_chain").result ∧
    (∀ bytes, (sampleSigned.SignBytes sampleJson "test_chain_id").result = Except.ok bytes →
      ¬ (sampleWire.BinaryString "test_chain_id" <+: bytes)) := by
  refine ⟨rfl, by decide, rfl, ?_⟩
  intro bytes h
  have hb : bytes = 123 :: sampleSigned.Transaction.Participants.foldr
      (fun p acc => p.toList.map (fun c => Fin.ofNat c.toNat) ++ acc) [125] := by
    have := (Except.ok.inj h).symm
    exact this
  subst hb
  decide

/-- C15, amended: the bytes `SignBytes` returns for a `SendTx` and for an
`AppTx` begin with the wire encoding of the chain identifier. -/
theorem signBytes_chainID_first (w : Wire) (chainID : String) :
    (∀ tx : SendTx, w.BinaryString chainID <+: (tx.SignBytes w chainID).1) ∧
    (∀ tx : AppTx, w.BinaryString chainID <+: (tx.SignBytes w chainID).1) := by
  constructor
  · intro tx
    rw [SendTx.signBytes_eq]
    exact ⟨_, rfl⟩
  · intro tx
    rw [AppTx.signBytes_app_eq]
    exact ⟨_, rfl⟩

theorem Tx.signBytes_state (w : Wire) (chainID : String) (tx : Tx) :
    (tx.SignBytes w chainID).2 = tx := by
  cases tx with
  | send tx => simp [Tx.SignBytes, SendTx.signBytes_eq]
  | app tx => simp [Tx.SignBytes, AppTx.signBytes_app_eq]
  | binarySignedCobalt tx => rfl

theorem ripemd160_length (msg : List Byte) : (ripemd160 msg).length = 20 := by
  simp [ripemd160, le32]

set_option maxRecDepth 100000 in
/-- C16, as stated, fails: the sign bytes of the sample pre-encoded
transaction are `7B 7D`, and its `TxID` is not the RIPEMD-160 digest of these
two bytes (`85E318...`) but the digest of their wire encoding `01 02 7B 7D`
(`3D665D...`). -/
theorem TxID_digest_counterexample :
    (Tx.SignBytes sampleWire "test_chain_id" (Tx.binarySignedCobalt sampleBinary)).1 =
      [123, 125] ∧
    ripemd160 [123, 125] =
      [133, 227, 24, 162, 179, 41, 83, 237, 227, 64, 95, 240, 178, 145, 78, 150, 198, 41, 36,
        100] ∧
    (TxID sampleWire "test_chain_id" (Tx.binarySignedCobalt sampleBinary)).1 =
      [61, 102, 93, 30, 215, 71, 158, 172, 195, 102, 90, 245, 197, 209, 236, 32, 18, 55, 202,
        77] ∧
    (TxID sampleWire "test_chain_id" (Tx.binarySignedCobalt sampleBinary)).1 ≠
      ripemd160 (Tx.SignBytes sampleWire "test_chain_id" (Tx.binarySignedCobalt sampleBinary)).1 := by
  decide

/-- C16, amended: `TxID` is the 20-byte RIPEMD-160 digest of the wire encoding
(the length as a varint, then the bytes) of the bytes `tx.SignBytes(chainID)`
returns, and leaves the transaction unchanged; so two transactions with the
same sign bytes under a chain identifier have the same `TxID`, and the `TxID`
of a `SendTx` is the same before and after `SetSignature`. -/
theorem TxID_spec (w : Wire) (chainID : String) :
    (∀ tx : Tx,
      (TxID w chainID tx).1 =
        ripemd160 (wireVarint (tx.SignBytes w chainID).1.length ++ (tx.SignBytes w chainID).1) ∧
      (TxID w chainID tx).1.length = 20 ∧ (TxID w chainID tx).2 = tx) ∧
    (∀ tx₁ tx₂ : Tx, (tx₁.SignBytes w chainID).1 = (tx₂.SignBytes w chainID).1 →
      (TxID w chainID tx₁).1 = (TxID w chainID tx₂).1) ∧
    (∀ (tx : SendTx) (a : List Byte) (s : Option Signature),
      (TxID w chainID (Tx.send (tx.SetSignature a s).2)).1 =
        (TxID w chainID (Tx.send tx)).1) := by
  refine ⟨?_, ?_, ?_⟩
  · intro tx
    exact ⟨rfl, ripemd160_length _, Tx.signBytes_state w chainID tx⟩
  · intro tx₁ tx₂ heq
    simp only [TxID, heq]
  · intro tx a s
    obtain ⟨hf, hg, ho, hi⟩ := SendTx.setSignature_clear tx a s
    simp only [TxID, Tx.SignBytes, SendTx.signBytes_eq, hf, hg, ho, hi]

theorem TxID_spec_witness :
    (Tx.SignBytes sampleWire "test_chain_id" (Tx.send sampleSendTx)).1 =
      (Tx.SignBytes sampleWire "test_chain_id" (Tx.send sampleSendTxSigned)).1 ∧
    (TxID sampleWire "test_chain_id" (Tx.send sampleSendTx)).1 =
      (TxID sampleWire "test_chain_id" (Tx.send sampleSendTxSigned)).1 :=
  ⟨by decide, (TxID_spec sampleWire "test_chain_id").2.1 _ _ (by decide)⟩

/-! ### The JSON surface and the remaining checks -/

/-- C18, on the code: unmarshalling the document of `TestParseTx`, which gives
the payload under `cobaltNormalisedRepresentation`, succeeds and leaves
`Transaction.NormalizedTx` nil, because the struct tag is
`cobaltNormalizedRepresentation`; only a document that spells the key like the
tag has its payload stored, and that is the key marshalling emits. -/
theorem SignedCobaltTx.unmarshal_drops_normalized :
    SignedCobaltTx.unmarshal sampleDocument emptySigned = Except.ok sampleParsed ∧
    sampleParsed.Transaction.NormalizedTx = none ∧
    jsonFieldFor CobaltTx.jsonTags "cobaltNormalisedRepresentation" = none ∧
    (CobaltTx.unmarshal sampleTagged emptySigned.Transaction).map CobaltTx.NormalizedTx =
      Except.ok (some [123, 125]) ∧
    CobaltTx.marshalNormalized sampleParsed.Transaction =
      ("cobaltNormalizedRepresentation", none) ∧
    "cobaltNormalizedRepresentation" ≠ "cobaltNormalisedRepresentation" :=
  ⟨rfl, rfl, by decide, rfl, rfl, by decide⟩

/-- C19, as stated, fails: the input of `testSendTx`, with sequence 1 and the
public key present, is accepted, and its sequence is not 0. -/
theorem TxInput.validateBasic_pubKey_counterexample :
    sampleInputAccepted.ValidateBasic = OK ∧
    sampleInputAccepted.PubKey.isSome = true ∧
    sampleInputAccepted.Sequence ≠ 0 := by
  decide

theorem TxInput.validateBasic_ok_sequence (i : TxInput) (h : i.ValidateBasic = OK) :
    0 < i.Sequence ∧ ¬ (i.Sequence = 1 ∧ i.PubKey = none) ∧
      ¬ (i.Sequence > 1 ∧ i.PubKey ≠ none) := by
  unfold TxInput.ValidateBasic at h
  split_ifs at h with h1 h2 h3 h4 h5 h6
  all_goals first
    | exact absurd h (Result.appendLog_input_ne_OK _)
    | exact ⟨by omega, h5, h6⟩

/-- C19, amended: for every `TxInput` that `TxInput.ValidateBasic` accepts, the
public key is present if and only if the sequence is 1. -/
theorem TxInput.validateBasic_pubKey_iff (i : TxInput) (h : i.ValidateBasic = OK) :
    i.PubKey.isSome = true ↔ i.Sequence = 1 := by
  obtain ⟨hpos, h5, h6⟩ := TxInput.validateBasic_ok_sequence i h
  constructor
  · intro hp
    by_contra hne
    have hgt : i.Sequence > 1 := by omega
    exact h6 ⟨hgt, by
      intro hn
      simp [hn] at hp⟩
  · intro hs
    by_contra hp
    exact h5 ⟨hs, by simpa using hp⟩

theorem TxInput.validateBasic_pubKey_iff_witness :
    sampleInputAccepted.ValidateBasic = OK ∧
    (sampleInputAccepted.PubKey.isSome = true ↔ sampleInputAccepted.Sequence = 1) :=
  ⟨by decide, TxInput.validateBasic_pubKey_iff sampleInputAccepted (by decide)⟩

/-- What `SetSignature` does for a name first found at `idx` and a nil
signature. -/
theorem SignedCobaltTx.setSignature_of_first_nil (tx : SignedCobaltTx) (name : String)
    (idx : Nat) (h : IsFirstIdx tx.Transaction.Participants name idx) :
    tx.SetSignature name none = Outcome.panicked Panic.nilDereference tx.allocate := by
  unfold SignedCobaltTx.SetSignature
  have hidx := SignedCobaltTx.findIdx_first name _ 0 idx h
  simp only [Nat.zero_add] at hidx
  have hne : ((idx : Nat) : Int) ≠ -1 := by omega
  simp only [hidx, hne, if_false]

/-- The receiver a call of `SetSignature` leaves behind is the old one, the
old one after the allocation step, or that with the first-occurrence slot of
the name overwritten. -/
theorem SignedCobaltTx.setSignature_state_cases (tx : SignedCobaltTx) (name : String)
    (sig : Option Signature) :
    (tx.SetSignature name sig).state = tx ∨
    (tx.SetSignature name sig).state = tx.allocate ∨
    ∃ (idx : Nat) (s : Signature), IsFirstIdx tx.Transaction.Participants name idx ∧
      (tx.SetSignature name sig).state = tx.allocate.withSlot idx (fmtX s.Bytes) := by
  by_cases hmem : name ∈ tx.Transaction.Participants
  · obtain ⟨idx, hidx⟩ := SignedCobaltTx.exists_first name _ hmem
    cases sig with
    | none =>
      right; left
      rw [SignedCobaltTx.setSignature_of_first_nil tx name idx hidx]
      rfl
    | some s =>
      rw [SignedCobaltTx.setSignature_of_first tx name s idx hidx]
      split_ifs
      · right; right
        exact ⟨idx, s, hidx, rfl⟩
      · right; left
        rfl
  · left
    rw [SignedCobaltTx.setSignature_of_not_mem tx name sig hmem]
    rfl

theorem SignedCobaltTx.allocate_getD (tx : SignedCobaltTx) (j : Nat) :
    tx.allocate.Signatures.getD j "" = tx.Signatures.getD j "" := by
  unfold SignedCobaltTx.allocate
  split_ifs with h
  · have hnil : tx.Signatures = [] := List.length_eq_zero.1 h
    simp only [hnil, List.getD_eq_getElem?_getD, List.getElem?_replicate]
    split_ifs <;> simp
  · rfl

theorem SignedCobaltTx.withSlot_getD (tx : SignedCobaltTx) (idx j : Nat) (v : String)
    (h : idx ≠ j) : (tx.withSlot idx v).Signatures.getD j "" = tx.Signatures.getD j "" := by
  simp only [SignedCobaltTx.withSlot, List.getD_eq_getElem?_getD, List.getElem?_set_ne h]

/-- An index at which a name occurs for the second time is the first
occurrence of no name. -/
theorem IsFirstIdx.ne_of_repeated {l : List String} {n name : String} {i j idx : Nat}
    (hi : l[i]? = some n) (hj : l[j]? = some n) (hij : i < j)
    (h : IsFirstIdx l name idx) : idx ≠ j := by
  intro heq
  subst heq
  have hn : name = n := Option.some.inj (h.1.symm.trans hj)
  subst hn
  exact h.2 i hij hi

/-- One call leaves the document and the slot of a repeated name as they
were. -/
theorem SignedCobaltTx.setSignature_state_slot (tx : SignedCobaltTx) (i j : Nat) (n : String)
    (hi : tx.Transaction.Participants[i]? = some n)
    (hj : tx.Transaction.Participants[j]? = some n) (hij : i < j)
    (name : String) (sig : Option Signature) :
    (tx.SetSignature name sig).state.Transaction = tx.Transaction ∧
    (tx.SetSignature name sig).state.Signatures.getD j "" = tx.Signatures.getD j "" := by
  rcases SignedCobaltTx.setSignature_state_cases tx name sig with h | h | ⟨idx, s, hidx, h⟩
  · rw [h]; exact ⟨rfl, rfl⟩
  · rw [h]
    exact ⟨SignedCobaltTx.allocate_transaction tx, SignedCobaltTx.allocate_getD tx j⟩
  · rw [h]
    refine ⟨SignedCobaltTx.allocate_transaction tx, ?_⟩
    rw [SignedCobaltTx.withSlot_getD _ idx j _ (IsFirstIdx.ne_of_repeated hi hj hij hidx)]
    exact SignedCobaltTx.allocate_getD tx j

/-- Any number of calls leaves the document and the slot of a repeated name
as they were. -/
theorem SignedCobaltTx.afterCalls_slot (calls : List (String × Option Signature)) :
    ∀ (tx : SignedCobaltTx) (i j : Nat) (n : String),
      tx.Transaction.Participants[i]? = some n →
      tx.Transaction.Participants[j]? = some n → i < j →
      (tx.afterCalls calls).Transaction = tx.Transaction ∧
      (tx.afterCalls calls).Signatures.getD j "" = tx.Signatures.getD j "" := by
  induction calls with
  | nil => intro tx i j n _ _ _; exact ⟨rfl, rfl⟩
  | cons c calls ih =>
    intro tx i j n hi hj hij
    obtain ⟨name, sig⟩ := c
    obtain ⟨ht, hs⟩ := SignedCobaltTx.setSignature_state_slot tx i j n hi hj hij name sig
    obtain ⟨ht2, hs2⟩ := ih (tx.SetSignature name sig).state i j n
      (by rw [ht]; exact hi) (by rw [ht]; exact hj) hij
    exact ⟨ht2.trans ht, hs2.trans hs⟩

/-- C21: a call of `SetSignature` that returns has written the slot of the
first occurrence of the name and no other slot. When the participants have the
same name at indices `i < j`, no call, returning or not, changes slot `j`, and
starting from unallocated slots no sequence of calls reaches a fully signed
document: slot `j` stays empty. -/
theorem SignedCobaltTx.setSignature_first_slot_only (tx : SignedCobaltTx) (i j : Nat)
    (n : String) (hi : tx.Transaction.Participants[i]? = some n)
    (hj : tx.Transaction.Participants[j]? = some n) (hij : i < j) :
    (∀ (name : String) (sig : Option Signature) (b : Bool) (tx' : SignedCobaltTx),
      tx.SetSignature name sig = Outcome.returned b tx' →
      ∃ idx s, sig = some s ∧ IsFirstIdx tx.Transaction.Participants name idx ∧
        tx' = tx.allocate.withSlot idx (fmtX s.Bytes) ∧
        ∀ k, k ≠ idx → tx'.Signatures[k]? = tx.allocate.Signatures[k]?) ∧
    (∀ (name : String) (sig : Option Signature),
      (tx.SetSignature name sig).state.Signatures.getD j "" = tx.Signatures.getD j "") ∧
    (tx.Signatures.length = 0 →
      ∀ calls : List (String × Option Signature),
        (tx.afterCalls calls).Signatures.getD j "" = "" ∧
        ¬ (tx.afterCalls calls).FullySigned) := by
  refine ⟨?_, ?_, ?_⟩
  · intro name sig b tx' h
    have hmem : name ∈ tx.Transaction.Participants := by
      by_contra hc
      rw [SignedCobaltTx.setSignature_of_not_mem tx name sig hc] at h
      exact Outcome.noConfusion h
    obtain ⟨idx, hidx⟩ := SignedCobaltTx.exists_first name _ hmem
    cases sig with
    | none =>
      rw [SignedCobaltTx.setSignature_of_first_nil tx name idx hidx] at h
      exact Outcome.noConfusion h
    | some s =>
      rw [SignedCobaltTx.setSignature_of_first tx name s idx hidx] at h
      split_ifs at h
      simp only [Outcome.returned.injEq] at h
      refine ⟨idx, s, rfl, hidx, h.2.symm, ?_⟩
      intro k hk
      rw [← h.2]
      simp only
      rw [List.getElem?_set_ne (Ne.symm hk)]
  · intro name sig
    exact (SignedCobaltTx.setSignature_state_slot tx i j n hi hj hij name sig).2
  · intro hun calls
    obtain ⟨ht, hs⟩ := SignedCobaltTx.afterCalls_slot calls tx i j n hi hj hij
    have hnil : tx.Signatures = [] := List.length_eq_zero.1 hun
    have hempty : (tx.afterCalls calls).Signatures.getD j "" = "" := by
      rw [hs, hnil]; rfl
    refine ⟨hempty, ?_⟩
    intro hfull
    have hjlt : j < (tx.afterCalls calls).Transaction.Participants.length := by
      rw [ht]
      by_contra hc
      rw [List.getElem?_eq_none (Nat.le_of_not_lt hc)] at hj
      exact Option.noConfusion hj
    obtain ⟨v, hv, hne⟩ := hfull j hjlt
    rw [List.getD_eq_getElem?_getD, hv] at hempty
    exact hne hempty

theorem SignedCobaltTx.setSignature_first_slot_only_witness :
    sampleDuplicate.Transaction.Participants[0]? = some "Citibank" ∧
    sampleDuplicate.Transaction.Participants[1]? = some "Citibank" ∧ 0 < 1 ∧
    sampleDuplicate.Signatures.length = 0 ∧
    ((sampleDuplicate.afterCalls
        [("Citibank", some sampleSig), ("Citibank", some sampleSig2)]).Signatures.getD 1 "" =
        "" ∧
      ¬ (sampleDuplicate.afterCalls
        [("Citibank", some sampleSig), ("Citibank", some sampleSig2)]).FullySigned) :=
  ⟨rfl, rfl, by decide, rfl,
    (SignedCobaltTx.setSignature_first_slot_only sampleDuplicate 0 1 "Citibank" rfl rfl
      (by decide)).2.2 rfl [("Citibank", some sampleSig), ("Citibank", some sampleSig2)]⟩


/-! ### `jsonEscape` -/

/-- C22, on the code: the two one-byte strings `FF` and `FE`, neither valid
UTF-8, are different, and `jsonEscape` returns the same string for both, the
JSON string literal with the one escape `\ufffd`. -/
theorem jsonEscape_not_injective :
    ([0xFF] : GoString) ≠ [0xFE] ∧
    jsonEscape [0xFF] = [34, 92, 117, 102, 102, 102, 100, 34] ∧
    jsonEscape [0xFE] = [34, 92, 117, 102, 102, 102, 100, 34] ∧
    jsonEscape [0xFF] = jsonEscape [0xFE] := by
  decide

end Basecoin
